import Mathlib

/-!
# Verification of the loki-gallery Gallery Tree Model

Shallow embedding of the gallery tree data model and the tree query /
mutation / listing-pipeline operations of the loki-gallery repository,
together with proofs and refutations of the specification's claims.

The TypeScript data model (`src/types/index.ts`) is mirrored by `MType`,
`Selection`, `MediaData` and `GItem`.  JavaScript arrays become `List`,
optional fields become `Option`, the optional boolean `isDeleted` becomes
`Bool` (TS code only ever tests its truthiness, where `undefined` and
`false` coincide).  JavaScript numbers that the claims depend on are
modelled by `JsNum`, exact fractions (integer numerator over natural
denominator, not normalized): the claims' arithmetic — parsing short
decimal literals and scaling by powers of two — is exact in IEEE doubles
as well, so the claimed identities are insensitive to this choice;
numeric equality is `jsEq` (cross-multiplication).
-/

/-- `MediaType.PHOTO | MediaType.VIDEO` — the non-folder media kinds. -/
inductive MType where
  | photo
  | video
deriving DecidableEq, Repr

/-- The `SelectionType` enumeration. -/
inductive Selection where
  | selNone
  | offSheet
  | frame
  | family
  | groomFamily
  | brideFamily
deriving DecidableEq, Repr

/-- The fields of a `MediaItem` (leaf node) from `src/types/index.ts`. -/
structure MediaData where
  id : String
  mtype : MType
  url : String
  title : String
  width : Int
  height : Int
  description : Option String
  likedBy : List String
  comment : Option String
  date : String
  fileSize : String
  isDeleted : Bool
  selection : Option Selection
deriving DecidableEq, Repr

/-- `GalleryContentItem = MediaItem | Folder`: a gallery tree node.  A
folder carries its `id`, `name`, ordered `children` and soft-delete flag. -/
inductive GItem where
  | media (m : MediaData)
  | folder (id : String) (name : String) (isDeleted : Bool) (children : List GItem)

namespace GItem

/-- The node's identifier (`item.id`). -/
def nid : GItem → String
  | media m => m.id
  | folder i _ _ _ => i

/-- `item.type === MediaType.FOLDER`. -/
def isFolder : GItem → Bool
  | media _ => false
  | folder _ _ _ _ => true

/-- Truthiness of `item.isDeleted`. -/
def del : GItem → Bool
  | media m => m.isDeleted
  | folder _ _ d _ => d

/-- The node's children (empty for media items). -/
def childrenOf : GItem → List GItem
  | media _ => []
  | folder _ _ _ cs => cs

/-- `{ ...item, isDeleted }`: the spread copies every field, including a
folder's `children`, and overrides only the soft-delete flag. -/
def setDel (b : Bool) : GItem → GItem
  | media m => media { m with isDeleted := b }
  | folder i n _ cs => folder i n b cs

/-- The node with its subtree erased: a folder keeps its own fields but
loses its children.  Comparing `label`s at equal positions captures
"structurally copied unchanged along the path to the target". -/
def label : GItem → GItem
  | media m => media m
  | folder i n d _ => folder i n d []

end GItem

open GItem

/-- Node addressed by a path of child indices (root list is the top level):
`nodeAt l [i, j]` is child `j` of folder `i` of `l`. -/
def nodeAt : List GItem → List Nat → Option GItem
  | _, [] => none
  | l, [i] => l[i]?
  | l, i :: j :: p =>
    match l[i]? with
    | some (.folder _ _ _ cs) => nodeAt cs (j :: p)
    | _ => none

mutual
/-- Number of nodes in the subtree rooted at an item whose id equals `i`. -/
def countIdItem (i : String) : GItem → Nat
  | .media m => if m.id = i then 1 else 0
  | .folder fi _ _ cs => (if fi = i then 1 else 0) + countIdList i cs
/-- Number of nodes in a forest whose id equals `i`. -/
def countIdList (i : String) : List GItem → Nat
  | [] => 0
  | x :: xs => countIdItem i x + countIdList i xs
end

mutual
/-- Total number of nodes (folders plus media) in the subtree of an item. -/
def totalCountItem : GItem → Nat
  | .media _ => 1
  | .folder _ _ _ cs => 1 + totalCountList cs
/-- Total number of nodes in a forest. -/
def totalCountList : List GItem → Nat
  | [] => 0
  | x :: xs => totalCountItem x + totalCountList xs
end

/-- Simultaneous induction principle for gallery items and forests. -/
theorem galleryInduction (P : GItem → Prop) (Q : List GItem → Prop)
    (hm : ∀ m, P (.media m))
    (hf : ∀ i n d cs, Q cs → P (.folder i n d cs))
    (hnil : Q [])
    (hcons : ∀ x xs, P x → Q xs → Q (x :: xs)) :
    (∀ x, P x) ∧ (∀ l, Q l) := by
  constructor
  · intro x
    induction x using GItem.rec (motive_2 := Q) with
    | media m => exact hm m
    | folder i n d cs ih => exact hf i n d cs ih
    | nil => exact hnil
    | cons y ys ihy ihys => exact hcons y ys ihy ihys
  · intro l
    induction l with
    | nil => exact hnil
    | cons y ys ihys =>
        refine hcons y ys ?_ ihys
        induction y using GItem.rec (motive_2 := Q) with
        | media m => exact hm m
        | folder i n d cs ih => exact hf i n d cs ih
        | nil => exact hnil
        | cons z zs ihz ihzs => exact hcons z zs ihz ihzs

/-! ## `findAndMutateMediaItem` (mutate-by-id), part_000 lines 189-199

```
const findAndMutateMediaItem = (items, mediaId, mutation) =>
  items.map(item => {
    if (item.type === MediaType.FOLDER) {
      return { ...item, children: findAndMutateMediaItem(item.children, mediaId, mutation) };
    }
    if (item.id === mediaId) { return mutation(item as MediaItem); }
    return item;
  });
```

The folder branch is tested first, so a folder whose id equals `mediaId`
is never handed to `mutation` (whose type is `MediaItem → MediaItem`);
only media nodes can be transformed. -/

mutual
/-- Per-item body of the `items.map` callback of `findAndMutateMediaItem`. -/
def famItem (mediaId : String) (mutation : MediaData → MediaData) : GItem → GItem
  | .folder i n d cs => .folder i n d (findAndMutateMediaItem mediaId mutation cs)
  | .media m => if m.id = mediaId then .media (mutation m) else .media m
/-- `findAndMutateMediaItem(items, mediaId, mutation)`. -/
def findAndMutateMediaItem (mediaId : String) (mutation : MediaData → MediaData) :
    List GItem → List GItem
  | [] => []
  | x :: xs => famItem mediaId mutation x :: findAndMutateMediaItem mediaId mutation xs
end

theorem findAndMutateMediaItem_eq_map (mid : String) (f : MediaData → MediaData)
    (l : List GItem) : findAndMutateMediaItem mid f l = l.map (famItem mid f) := by
  induction l with
  | nil => rfl
  | cons x xs ih => simp [findAndMutateMediaItem, ih]

theorem nodeAt_findAndMutateMediaItem (mid : String) (f : MediaData → MediaData)
    (p : List Nat) : ∀ l, nodeAt (findAndMutateMediaItem mid f l) p
      = (nodeAt l p).map (famItem mid f) := by
  induction p with
  | nil => intro l; rfl
  | cons i p ih =>
      intro l
      have hmap : (findAndMutateMediaItem mid f l)[i]? = (l[i]?).map (famItem mid f) := by
        rw [findAndMutateMediaItem_eq_map]
        exact List.getElem?_map (famItem mid f) l i
      cases p with
      | nil => simp only [nodeAt, hmap]
      | cons j q =>
          simp only [nodeAt, hmap]
          cases h : l[i]? with
          | none => rfl
          | some xa =>
              cases xa with
              | media m =>
                  by_cases hm : m.id = mid
                  · simp [famItem, hm]
                  · simp [famItem, hm]
              | folder i' n d cs =>
                  simp [famItem, ih cs]

/-- The count of id `i` inside any element of `l` is at most the count in `l`. -/
theorem countIdItem_le_countIdList (i : String) :
    ∀ (l : List GItem) (a : Nat) (x : GItem), l[a]? = some x →
      countIdItem i x ≤ countIdList i l := by
  intro l
  induction l with
  | nil => intro a x h; simp at h
  | cons y ys ih =>
      intro a x h
      cases a with
      | zero =>
          simp at h
          subst h
          simp [countIdList]
      | succ b =>
          simp only [List.getElem?_cons_succ] at h
          have := ih b x h
          simp only [countIdList]
          omega

/-- If a node with id `i` sits at the end of path `p` in `l`, the count of
id `i` in `l` is at least 1. -/
theorem one_le_countIdList (i : String) (p : List Nat) :
    ∀ l x, nodeAt l p = some x → x.nid = i → 1 ≤ countIdList i l := by
  induction p with
  | nil => intro l x h _; simp [nodeAt] at h
  | cons a p ih =>
      intro l x h hx
      cases p with
      | nil =>
          simp only [nodeAt] at h
          have hle := countIdItem_le_countIdList i l a x h
          have h1 : 1 ≤ countIdItem i x := by
            cases x with
            | media m =>
                simp [GItem.nid] at hx
                simp [countIdItem, hx]
            | folder fi n d cs =>
                simp [GItem.nid] at hx
                simp [countIdItem, hx]
          omega
      | cons j q =>
          simp only [nodeAt] at h
          cases hg : l[a]? with
          | none => rw [hg] at h; exact Option.noConfusion h
          | some xa =>
              rw [hg] at h
              have hle := countIdItem_le_countIdList i l a xa hg
              have h1 : 1 ≤ countIdItem i xa := by
                cases xa with
                | media m => exact Option.noConfusion h
                | folder fi n d cs =>
                    have := ih cs x h hx
                    simp only [countIdItem]
                    omega
              omega

/-- Two distinct indices contribute separately to the id count. -/
theorem countId_two_elems (i : String) :
    ∀ (l : List GItem) (a b : Nat) (xa yb : GItem), a ≠ b →
      l[a]? = some xa → l[b]? = some yb →
      countIdItem i xa + countIdItem i yb ≤ countIdList i l := by
  intro l
  induction l with
  | nil => intro a b xa yb _ h; simp at h
  | cons y ys ih =>
      intro a b xa yb hne ha hb
      cases a with
      | zero =>
          simp at ha
          subst ha
          cases b with
          | zero => exact absurd rfl hne
          | succ b' =>
              simp only [List.getElem?_cons_succ] at hb
              have := countIdItem_le_countIdList i ys b' yb hb
              simp only [countIdList]
              omega
      | succ a' =>
          simp only [List.getElem?_cons_succ] at ha
          cases b with
          | zero =>
              simp at hb
              subst hb
              have := countIdItem_le_countIdList i ys a' xa ha
              simp only [countIdList]
              omega
          | succ b' =>
              simp only [List.getElem?_cons_succ] at hb
              have : a' ≠ b' := fun hh => hne (by rw [hh])
              have := ih a' b' xa yb this ha hb
              simp only [countIdList]
              omega

/-- When id `i` occurs at most once in the forest, any two paths leading to
nodes carrying id `i` coincide. -/
theorem nodeAt_id_unique (i : String) (p : List Nat) :
    ∀ (q : List Nat) (l : List GItem) (x y : GItem),
      countIdList i l ≤ 1 →
      nodeAt l p = some x → nodeAt l q = some y →
      x.nid = i → y.nid = i → p = q := by
  induction p with
  | nil => intro q l x y _ h; simp [nodeAt] at h
  | cons a p ih =>
      intro q l x y hcnt hp hq hx hy
      cases q with
      | nil => simp [nodeAt] at hq
      | cons b q' =>
          have hab : a = b := by
            by_contra hne
            -- each of positions a and b holds at least one node with id i
            have hA : ∃ xa, l[a]? = some xa ∧ 1 ≤ countIdItem i xa := by
              cases p with
              | nil =>
                  refine ⟨x, hp, ?_⟩
                  cases x with
                  | media m =>
                      simp [GItem.nid] at hx
                      simp [countIdItem, hx]
                  | folder fi n d cs =>
                      simp [GItem.nid] at hx
                      simp [countIdItem, hx]
              | cons j r =>
                  simp only [nodeAt] at hp
                  cases hg : l[a]? with
                  | none => rw [hg] at hp; exact Option.noConfusion hp
                  | some xa =>
                      rw [hg] at hp
                      refine ⟨xa, rfl, ?_⟩
                      cases xa with
                      | media m => exact Option.noConfusion hp
                      | folder fi n d cs =>
                          have := one_le_countIdList i (j :: r) cs x hp hx
                          simp only [countIdItem]
                          omega
            have hB : ∃ yb, l[b]? = some yb ∧ 1 ≤ countIdItem i yb := by
              cases q' with
              | nil =>
                  refine ⟨y, hq, ?_⟩
                  cases y with
                  | media m =>
                      simp [GItem.nid] at hy
                      simp [countIdItem, hy]
                  | folder fi n d cs =>
                      simp [GItem.nid] at hy
                      simp [countIdItem, hy]
              | cons k s =>
                  simp only [nodeAt] at hq
                  cases hg : l[b]? with
                  | none => rw [hg] at hq; exact Option.noConfusion hq
                  | some yb =>
                      rw [hg] at hq
                      refine ⟨yb, rfl, ?_⟩
                      cases yb with
                      | media m => exact Option.noConfusion hq
                      | folder fi n d cs =>
                          have := one_le_countIdList i (k :: s) cs y hq hy
                          simp only [countIdItem]
                          omega
            obtain ⟨xa, hga, h1a⟩ := hA
            obtain ⟨yb, hgb, h1b⟩ := hB
            have := countId_two_elems i l a b xa yb hne hga hgb
            omega
          subst hab
          cases p with
          | nil =>
              cases q' with
              | nil => rfl
              | cons k s =>
                  -- the node at [a] carries id i and also has a descendant with id i
                  exfalso
                  simp only [nodeAt] at hp hq
                  rw [hp] at hq
                  cases x with
                  | media m => exact Option.noConfusion hq
                  | folder fi n d cs =>
                      simp [GItem.nid] at hx
                      have h1 := one_le_countIdList i (k :: s) cs y hq hy
                      have h2 := countIdItem_le_countIdList i l a _ hp
                      simp [countIdItem, hx] at h2
                      omega
          | cons j r =>
              cases q' with
              | nil =>
                  exfalso
                  simp only [nodeAt] at hp hq
                  rw [hq] at hp
                  cases y with
                  | media m => exact Option.noConfusion hp
                  | folder fi n d cs =>
                      simp [GItem.nid] at hy
                      have h1 := one_le_countIdList i (j :: r) cs x hp hx
                      have h2 := countIdItem_le_countIdList i l a _ hq
                      simp [countIdItem, hy] at h2
                      omega
              | cons k s =>
                  simp only [nodeAt] at hp hq
                  cases hg : l[a]? with
                  | none => rw [hg] at hp; exact Option.noConfusion hp
                  | some xa =>
                      rw [hg] at hp hq
                      cases xa with
                      | media m => exact Option.noConfusion hp
                      | folder fi n d cs =>
                          have hcs : countIdList i cs ≤ 1 := by
                            have := countIdItem_le_countIdList i l a _ hg
                            simp only [countIdItem] at this
                            omega
                          have := ih (k :: s) cs x y hcs hp hq hx hy
                          rw [this]

/-- C1: for every gallery tree `T`, identifier `i` occurring exactly once in
`T` (at the media node `m`, the only kind of node the typed transform
`f : MediaItem → MediaItem` can be applied to), and transform `f`,
`findAndMutateMediaItem` replaces the node with id `i` by `f m`, and every
other position holds a node whose own fields (`label`: all fields except the
rebuilt children list along the path to the target) are unchanged. -/
theorem findAndMutateMediaItem_replaces_only_target
    (T : List GItem) (i : String) (f : MediaData → MediaData)
    (p0 : List Nat) (m : MediaData)
    (hp0 : nodeAt T p0 = some (.media m))
    (hid : m.id = i)
    (huniq : countIdList i T = 1) :
    nodeAt (findAndMutateMediaItem i f T) p0 = some (.media (f m)) ∧
    ∀ p, p ≠ p0 →
      Option.map GItem.label (nodeAt (findAndMutateMediaItem i f T) p)
        = Option.map GItem.label (nodeAt T p) := by
  constructor
  · rw [nodeAt_findAndMutateMediaItem, hp0]
    simp [famItem, hid]
  · intro p hne
    rw [nodeAt_findAndMutateMediaItem]
    cases h : nodeAt T p with
    | none => rfl
    | some x =>
        cases x with
        | folder fi n d cs => simp [famItem, GItem.label]
        | media m' =>
            by_cases hm : m'.id = i
            · exact absurd
                (nodeAt_id_unique i p p0 T (.media m') (.media m)
                  (le_of_eq huniq) h hp0 hm hid) hne
            · simp [famItem, hm]

/-- A media item with only the fields the claims depend on filled in. -/
def mkMedia (i t : String) : MediaData :=
  { id := i, mtype := .photo, url := "", title := t, width := 0, height := 0,
    description := none, likedBy := [], comment := none, date := "",
    fileSize := "", isDeleted := false, selection := none }

def c1M : MediaData := mkMedia "m1" "First"

def c1T : List GItem :=
  [.folder "f1" "Wedding" false [.media c1M], .media (mkMedia "m2" "Second")]

def c1F : MediaData → MediaData := fun m => { m with title := "Renamed" }

/-- Witness for C1 at a concrete two-level tree. -/
theorem findAndMutateMediaItem_replaces_only_target_witness :
    nodeAt (findAndMutateMediaItem "m1" c1F c1T) [0, 0]
      = some (.media (c1F c1M)) :=
  (findAndMutateMediaItem_replaces_only_target c1T "m1" c1F [0, 0] c1M
    rfl rfl rfl).1

/-! ## `getItemsForPath` (resolvePath), part_000 lines 202-221

Walks the folder-id path from the root listing; at each step the next id
is looked up among the *current* listing with
`currentItems.find(item => item.id === folderId && item.type === MediaType.FOLDER)`.
On any failure it returns the root listing filtered of deleted items with
the single synthetic breadcrumb `{id:'root', name:'Home'}`. -/

/-- A breadcrumb entry `{id, name}`. -/
structure Crumb where
  id : String
  name : String
deriving DecidableEq, Repr

/-- Result record of `getItemsForPath`. -/
structure PathResult where
  items : List GItem
  breadcrumbs : List Crumb
  currentFolder : Option GItem

/-- The loop body of `getItemsForPath`, carrying the evolving
`currentItems`, `breadcrumbs` and `currentFolder`. -/
def getItemsForPathGo (rootItems : List GItem) :
    List GItem → List Crumb → Option GItem → List String → PathResult
  | current, crumbs, cf, [] => ⟨current.filter (fun x => !x.del), crumbs, cf⟩
  | current, crumbs, _, fid :: rest =>
    match current.find? (fun it => it.nid = fid && it.isFolder) with
    | some (GItem.folder fi n d cs) =>
        getItemsForPathGo rootItems cs (crumbs ++ [⟨fi, n⟩])
          (some (.folder fi n d cs)) rest
    | _ => ⟨rootItems.filter (fun x => !x.del), [⟨"root", "Home"⟩], none⟩

/-- `getItemsForPath(rootItems, path)`. -/
def getItemsForPath (rootItems : List GItem) (path : List String) : PathResult :=
  getItemsForPathGo rootItems rootItems [⟨"root", "Home"⟩] none path

/-- Whether every step of the walk resolves to a folder of the current
listing (the success condition of the loop in `getItemsForPath`). -/
def pathStepsResolve : List GItem → List String → Bool
  | _, [] => true
  | current, fid :: rest =>
    match current.find? (fun it => it.nid = fid && it.isFolder) with
    | some (GItem.folder _ _ _ cs) => pathStepsResolve cs rest
    | _ => false

theorem getItemsForPathGo_fallback (rootItems : List GItem) (path : List String) :
    ∀ current crumbs cf, pathStepsResolve current path = false →
      getItemsForPathGo rootItems current crumbs cf path
        = ⟨rootItems.filter (fun x => !x.del), [⟨"root", "Home"⟩], none⟩ := by
  induction path with
  | nil => intro current crumbs cf h; simp [pathStepsResolve] at h
  | cons fid rest ih =>
      intro current crumbs cf h
      simp only [pathStepsResolve] at h
      simp only [getItemsForPathGo]
      cases hf : current.find? (fun it => it.nid = fid && it.isFolder) with
      | none => rfl
      | some x =>
          rw [hf] at h
          cases x with
          | media m => rfl
          | folder fi n d cs => exact ih cs _ _ h

/-- C4: if any step of the path walk fails to resolve (id not found among
the current listing, or naming a non-folder), `getItemsForPath` returns the
top-level non-deleted listing with the single breadcrumb
`{id:"root", name:"Home"}` and no current folder. -/
theorem getItemsForPath_invalid_path_falls_back_to_root
    (T : List GItem) (p : List String)
    (hfail : pathStepsResolve T p = false) :
    getItemsForPath T p
      = ⟨T.filter (fun x => !x.del), [⟨"root", "Home"⟩], none⟩ :=
  getItemsForPathGo_fallback T p T [⟨"root", "Home"⟩] none hfail

def c4T : List GItem :=
  [.folder "f1" "Wedding" false [.media (mkMedia "m1" "First")],
   .media (mkMedia "m2" "Second"),
   .media { mkMedia "m3" "Third" with isDeleted := true }]

/-- Witness for C4: `resolvePath(T, ["bogus-id"])` on a concrete tree yields
the non-deleted root listing and breadcrumbs `[{id:"root", name:"Home"}]`. -/
theorem getItemsForPath_invalid_path_falls_back_to_root_witness :
    getItemsForPath c4T ["bogus-id"]
      = ⟨[.folder "f1" "Wedding" false [.media (mkMedia "m1" "First")],
          .media (mkMedia "m2" "Second")], [⟨"root", "Home"⟩], none⟩ :=
  getItemsForPath_invalid_path_falls_back_to_root c4T ["bogus-id"] rfl

/-! ## `flatten` (allMediaItems), part_000 lines 759-772

```
const flatten = (items) => {
  let all = [];
  for (const item of items) {
    all.push(item);
    if (item.type === MediaType.FOLDER) { all = all.concat(flatten(item.children)); }
  }
  return all;
};
```
-/

mutual
/-- The part of `flatten` contributed by one item: the item itself followed
by the flattening of its children. -/
def flattenItem : GItem → List GItem
  | .media m => [.media m]
  | .folder i n d cs => .folder i n d cs :: flattenList cs
/-- `flatten(items)`. -/
def flattenList : List GItem → List GItem
  | [] => []
  | x :: xs => flattenItem x ++ flattenList xs
end

theorem flattenItem_eq (x : GItem) :
    flattenItem x = x :: flattenList x.childrenOf := by
  cases x with
  | media m => rfl
  | folder i n d cs => rfl

/-- `y` is a proper descendant of `x` in the gallery tree. -/
inductive Descends : GItem → GItem → Prop where
  | here (i n : String) (d : Bool) (cs : List GItem) (c : GItem) :
      c ∈ cs → Descends (.folder i n d cs) c
  | there (i n : String) (d : Bool) (cs : List GItem) (c y : GItem) :
      c ∈ cs → Descends c y → Descends (.folder i n d cs) y

theorem length_flatten (T : List GItem) :
    (flattenList T).length = totalCountList T := by
  have h := galleryInduction
    (fun x => (flattenItem x).length = totalCountItem x)
    (fun l => (flattenList l).length = totalCountList l)
    (fun m => rfl)
    (fun i n d cs ih => by
      simp [flattenItem, totalCountItem, ih]
      omega)
    rfl
    (fun x xs ihx ihxs => by
      simp [flattenList, totalCountList, ihx, ihxs])
  exact h.2 T

theorem mem_flattenList_of_mem :
    ∀ (cs : List GItem) (c y : GItem), c ∈ cs → y ∈ flattenItem c →
      y ∈ flattenList cs := by
  intro cs
  induction cs with
  | nil => intro c y h; simp at h
  | cons z zs ih =>
      intro c y hc hy
      rcases List.mem_cons.mp hc with h | h
      · subst h
        simp only [flattenList, List.mem_append]
        exact Or.inl hy
      · simp only [flattenList, List.mem_append]
        exact Or.inr (ih c y h hy)

theorem mem_flatten_of_descends (x y : GItem) (h : Descends x y) :
    y ∈ flattenList x.childrenOf := by
  induction h with
  | here i n d cs c hc =>
      exact mem_flattenList_of_mem cs c c hc
        (by rw [flattenItem_eq]; exact List.mem_cons_self c _)
  | there i n d cs c z hc _ ih =>
      exact mem_flattenList_of_mem cs c z hc
        (by rw [flattenItem_eq]; exact List.mem_cons_of_mem c ih)

theorem flatten_decomp :
    ∀ (l : List GItem) (a : Nat) (xa : GItem), l[a]? = some xa →
      ∃ pre post, flattenList l = pre ++ flattenItem xa ++ post := by
  intro l
  induction l with
  | nil => intro a xa h; simp at h
  | cons y ys ih =>
      intro a xa h
      cases a with
      | zero =>
          simp at h
          subst h
          exact ⟨[], flattenList ys, rfl⟩
      | succ b =>
          simp only [List.getElem?_cons_succ] at h
          obtain ⟨pre, post, hp⟩ := ih b xa h
          refine ⟨flattenItem y ++ pre, post, ?_⟩
          simp [flattenList, hp]

theorem flatten_nodeAt_decomp (p : List Nat) :
    ∀ (l : List GItem) (x : GItem), nodeAt l p = some x →
      ∃ pre post,
        flattenList l = pre ++ x :: (flattenList x.childrenOf ++ post) := by
  induction p with
  | nil => intro l x h; simp [nodeAt] at h
  | cons a p ih =>
      intro l x h
      cases p with
      | nil =>
          simp only [nodeAt] at h
          obtain ⟨pre, post, hp⟩ := flatten_decomp l a x h
          refine ⟨pre, post, ?_⟩
          rw [hp, flattenItem_eq]
          simp
      | cons j q =>
          simp only [nodeAt] at h
          cases hg : l[a]? with
          | none => rw [hg] at h; exact Option.noConfusion h
          | some xa =>
              rw [hg] at h
              cases xa with
              | media m => exact Option.noConfusion h
              | folder fi n d cs =>
                  obtain ⟨pre1, post1, h1⟩ := flatten_decomp l a _ hg
                  obtain ⟨pre2, post2, h2⟩ := ih cs x h
                  refine ⟨pre1 ++ GItem.folder fi n d cs :: pre2,
                          post2 ++ post1, ?_⟩
                  rw [h1, flattenItem_eq]
                  simp only [GItem.childrenOf] at h2 ⊢
                  rw [h2]
                  simp

/-- C7: `flatten` is a pre-order traversal — every node of the tree appears
in the output followed immediately by the flattening of its own subtree
(hence before each of its descendants, which all belong to that
flattening), and the output length is the total number of folders plus
media items. -/
theorem flatten_preorder_and_total_length (T : List GItem) :
    (flattenList T).length = totalCountList T ∧
    ∀ (p : List Nat) (x : GItem), nodeAt T p = some x →
      (∃ pre post,
        flattenList T = pre ++ x :: (flattenList x.childrenOf ++ post)) ∧
      ∀ y, Descends x y → y ∈ flattenList x.childrenOf := by
  refine ⟨length_flatten T, fun p x hp => ⟨flatten_nodeAt_decomp p T x hp, ?_⟩⟩
  intro y hy
  exact mem_flatten_of_descends x y hy

def c7T : List GItem :=
  [.folder "f1" "Wedding" false
     [.media (mkMedia "m1" "First"),
      .folder "f2" "Reception" false [.media (mkMedia "m2" "Second")]],
   .media (mkMedia "m3" "Third")]

/-- Witness for C7 at a concrete three-level tree, instantiated at the
nested folder `f2`. -/
theorem flatten_preorder_and_total_length_witness :
    (flattenList c7T).length = totalCountList c7T ∧
    (∃ pre post, flattenList c7T = pre ++
        (GItem.folder "f2" "Reception" false [.media (mkMedia "m2" "Second")]) ::
        (flattenList (GItem.folder "f2" "Reception" false
          [.media (mkMedia "m2" "Second")]).childrenOf ++ post)) ∧
    ∀ y, Descends (GItem.folder "f2" "Reception" false
        [.media (mkMedia "m2" "Second")]) y →
      y ∈ flattenList (GItem.folder "f2" "Reception" false
        [.media (mkMedia "m2" "Second")]).childrenOf :=
  ⟨(flatten_preorder_and_total_length c7T).1,
   ((flatten_preorder_and_total_length c7T).2 [0, 1] _ rfl).1,
   ((flatten_preorder_and_total_length c7T).2 [0, 1] _ rfl).2⟩

/-! ## `modifyItemsDeletedState` (setDeletedFlag), part_000 lines 1140-1159

```
const modifyRecursively = (items) => items.map(item => {
  if (idsToModify.has(item.id)) { return { ...item, isDeleted }; }
  if (item.type === MediaType.FOLDER) {
    return { ...item, children: modifyRecursively(item.children) };
  }
  return item;
});
```

The id test comes first: a targeted folder is returned via the spread with
only its flag changed and its children are NOT recursed into, so a
targeted node nested inside a targeted folder keeps its old flag. -/

mutual
/-- Per-item body of the `items.map` callback of `modifyRecursively`: the
membership test on `item.id` comes first, and only an untargeted folder
has its children rewritten. -/
def modifyRecItem (ids : List String) (b : Bool) : GItem → GItem
  | .media m => if m.id ∈ ids then (GItem.media m).setDel b else .media m
  | .folder i n d cs =>
      if i ∈ ids then (GItem.folder i n d cs).setDel b
      else .folder i n d (modifyRecList ids b cs)
/-- `modifyRecursively(items)` with the flag value `b`. -/
def modifyRecList (ids : List String) (b : Bool) : List GItem → List GItem
  | [] => []
  | x :: xs => modifyRecItem ids b x :: modifyRecList ids b xs
end

theorem modifyRecItem_targeted (ids : List String) (b : Bool) (x : GItem)
    (h : x.nid ∈ ids) : modifyRecItem ids b x = x.setDel b := by
  cases x with
  | media m => simp [GItem.nid] at h; simp [modifyRecItem, h]
  | folder i n d cs => simp [GItem.nid] at h; simp [modifyRecItem, h]

theorem modifyRecItem_untargeted (ids : List String) (b : Bool) (x : GItem)
    (h : x.nid ∉ ids) :
    modifyRecItem ids b x = (match x with
      | .media m => .media m
      | .folder i n d cs => .folder i n d (modifyRecList ids b cs)) := by
  cases x with
  | media m => simp [GItem.nid] at h; simp [modifyRecItem, h]
  | folder i n d cs => simp [GItem.nid] at h; simp [modifyRecItem, h]

theorem modifyRecList_eq_map (ids : List String) (b : Bool) (l : List GItem) :
    modifyRecList ids b l = l.map (modifyRecItem ids b) := by
  induction l with
  | nil => rfl
  | cons x xs ih => simp [modifyRecList, ih]

def c5T : List GItem :=
  [.folder "f" "Trash me" false [.media (mkMedia "c" "Child")]]

/-- C5 counterexample: with `targetIds = {f, c}` on a tree whose folder `f`
contains the media item `c`, the nested targeted node `c` does NOT receive
the flag — refuting "every targeted node (including a targeted node nested
inside another targeted folder) gets the flag". -/
theorem modifyItemsDeletedState_cascade_cex :
    ¬ (∀ (p : List Nat) (x : GItem),
        nodeAt (modifyRecList ["f", "c"] true c5T) p = some x →
        x.nid ∈ ["f", "c"] → x.del = true) := by
  intro h
  have := h [0, 0] (.media (mkMedia "c" "Child")) rfl (by simp [GItem.nid, mkMedia])
  simp [GItem.del, mkMedia] at this

theorem prefix_cons_elim {α : Type} {q : List α} {a : α} {p : List α}
    (h : q <+: (a :: p)) : q = [] ∨ ∃ r, q = a :: r ∧ r <+: p := by
  rcases q with _ | ⟨b, r⟩
  · exact Or.inl rfl
  · obtain ⟨t, ht⟩ := h
    simp only [List.cons_append, List.cons.injEq] at ht
    exact Or.inr ⟨r, by rw [ht.1], ⟨t, ht.2⟩⟩

/-- C5 as amended: `modifyItemsDeletedState` sets the flag on exactly the
targeted nodes that are not strictly nested inside another targeted node.
A node below some targeted node is returned unchanged (value-identical,
old flag included, even if itself targeted); an untargeted node with no
targeted strict ancestor keeps all its own fields (`label`); a targeted
node with no targeted strict ancestor becomes `{...node, isDeleted: b}`
with its subtree intact. -/
theorem modifyItemsDeletedState_amended (ids : List String) (b : Bool)
    (p : List Nat) :
    ∀ (T : List GItem) (x : GItem), nodeAt T p = some x →
      ((∃ q a, q <+: p ∧ q ≠ p ∧ nodeAt T q = some a ∧ a.nid ∈ ids) →
          nodeAt (modifyRecList ids b T) p = some x) ∧
      ((¬ ∃ q a, q <+: p ∧ q ≠ p ∧ nodeAt T q = some a ∧ a.nid ∈ ids) →
        (if x.nid ∈ ids
         then nodeAt (modifyRecList ids b T) p = some (x.setDel b)
         else Option.map GItem.label (nodeAt (modifyRecList ids b T) p)
            = some x.label)) := by
  induction p with
  | nil => intro T x h; simp [nodeAt] at h
  | cons a p ih =>
      intro T x h
      have hmap : (modifyRecList ids b T)[a]? = (T[a]?).map (modifyRecItem ids b) := by
        rw [modifyRecList_eq_map]
        exact List.getElem?_map _ T a
      cases p with
      | nil =>
          simp only [nodeAt] at h
          constructor
          · rintro ⟨q, y, hq, hne, hy, -⟩
            exfalso
            rcases prefix_cons_elim hq with rfl | ⟨r, rfl, hr⟩
            · simp [nodeAt] at hy
            · have : r = [] := List.prefix_nil.mp hr
              subst this
              exact hne rfl
          · intro _
            by_cases hin : x.nid ∈ ids
            · simp only [hin, if_true]
              simp only [nodeAt, hmap, h]
              simp [modifyRecItem_targeted ids b x hin]
            · simp only [hin, if_false]
              simp only [nodeAt, hmap, h]
              cases x with
              | media m =>
                  simp [modifyRecItem_untargeted ids b _ hin, GItem.label]
              | folder fi n d cs =>
                  simp [modifyRecItem_untargeted ids b _ hin, GItem.label]
      | cons j q' =>
          simp only [nodeAt] at h
          cases hg : T[a]? with
          | none => rw [hg] at h; exact Option.noConfusion h
          | some xa =>
              rw [hg] at h
              cases xa with
              | media m => exact Option.noConfusion h
              | folder fi n d cs =>
                  by_cases hin : (GItem.folder fi n d cs).nid ∈ ids
                  · -- the head element is itself targeted: its whole subtree
                    -- is returned unchanged apart from its own flag
                    have hres : nodeAt (modifyRecList ids b T) (a :: j :: q')
                        = nodeAt cs (j :: q') := by
                      simp only [nodeAt, hmap, hg]
                      simp [modifyRecItem_targeted ids b _ hin, GItem.setDel]
                    constructor
                    · intro _
                      rw [hres]
                      exact h
                    · intro hno
                      exfalso
                      exact hno ⟨[a], GItem.folder fi n d cs,
                        ⟨j :: q', rfl⟩, by simp, by simp [nodeAt, hg], hin⟩
                  · have hres : nodeAt (modifyRecList ids b T) (a :: j :: q')
                        = nodeAt (modifyRecList ids b cs) (j :: q') := by
                      simp only [nodeAt, hmap, hg]
                      simp [modifyRecItem_untargeted ids b _ hin]
                    have ihcs := ih cs x h
                    constructor
                    · rintro ⟨q, y, hq, hne, hy, hyin⟩
                      rw [hres]
                      rcases prefix_cons_elim hq with rfl | ⟨r, rfl, hr⟩
                      · simp [nodeAt] at hy
                      · rcases r with _ | ⟨r0, rs⟩
                        · simp only [nodeAt, hg] at hy
                          injection hy with hy
                          subst hy
                          exact absurd hyin hin
                        · have hy' : nodeAt cs (r0 :: rs) = some y := by
                            simp only [nodeAt, hg] at hy
                            exact hy
                          refine ihcs.1 ⟨r0 :: rs, y, hr, ?_, hy', hyin⟩
                          intro hcontra
                          exact hne (by rw [hcontra])
                    · intro hno
                      have hno' : ¬ ∃ q a2, q <+: (j :: q') ∧ q ≠ (j :: q') ∧
                          nodeAt cs q = some a2 ∧ a2.nid ∈ ids := by
                        rintro ⟨q, a2, hq, hne, ha2, hain⟩
                        refine hno ⟨a :: q, a2, ?_, ?_, ?_, hain⟩
                        · obtain ⟨t, ht⟩ := hq
                          exact ⟨t, by simp [ht]⟩
                        · intro hcontra
                          injection hcontra with h1 h2
                          exact hne h2
                        · rcases q with _ | ⟨q0, qs⟩
                          · simp [nodeAt] at ha2
                          · simp only [nodeAt, hg]
                            exact ha2
                      have := ihcs.2 hno'
                      by_cases hx : x.nid ∈ ids
                      · simp only [hx, if_true] at this ⊢
                        rw [hres]
                        exact this
                      · simp only [hx, if_false] at this ⊢
                        rw [hres]
                        exact this

/-- Witness for the amended C5: on the concrete tree, the nested targeted
node is returned unchanged (still undeleted) while the outermost targeted
folder gets the flag with its subtree intact. -/
theorem modifyItemsDeletedState_amended_witness :
    nodeAt (modifyRecList ["f", "c"] true c5T) [0, 0]
        = some (.media (mkMedia "c" "Child")) ∧
    nodeAt (modifyRecList ["f", "c"] true c5T) [0]
        = some (.folder "f" "Trash me" true [.media (mkMedia "c" "Child")]) := by
  constructor
  · exact (modifyItemsDeletedState_amended ["f", "c"] true [0, 0] c5T
      (.media (mkMedia "c" "Child")) rfl).1
      ⟨[0], .folder "f" "Trash me" false [.media (mkMedia "c" "Child")],
        ⟨[0], rfl⟩, by simp, rfl, by simp [GItem.nid]⟩
  · have h2 := (modifyItemsDeletedState_amended ["f", "c"] true [0] c5T
      (.folder "f" "Trash me" false [.media (mkMedia "c" "Child")]) rfl).2
      (by
        rintro ⟨q, a2, hq, hne, ha, -⟩
        rcases prefix_cons_elim hq with rfl | ⟨r, rfl, hr⟩
        · exact Option.noConfusion ha
        · have hr0 : r = [] := List.prefix_nil.mp hr
          subst hr0
          exact hne rfl)
    simpa [GItem.nid, GItem.setDel] using h2

/-! ## String comparison

`String.prototype.localeCompare` is modelled as code-point lexicographic
comparison (locale-independent; the claims and counterexamples only use
ASCII names, on which every locale agrees with code-point order). -/

/-- Characters are equal when their code points are. -/
theorem charEq_of_toNat {a b : Char} (h : a.toNat = b.toNat) : a = b :=
  Char.eq_of_val_eq (UInt32.toNat.inj h)

/-- Lexicographic three-way comparison of character lists by code point. -/
def cmpChars : List Char → List Char → Ordering
  | [], [] => .eq
  | [], _ :: _ => .lt
  | _ :: _, [] => .gt
  | a :: as, b :: bs =>
    if a.toNat < b.toNat then .lt
    else if b.toNat < a.toNat then .gt
    else cmpChars as bs

/-- `a.localeCompare(b)` modelled three-way. -/
def strCmp (a b : String) : Ordering := cmpChars a.data b.data

/-- An exact fraction standing in for a JavaScript number: `num / den`,
not normalized (`den` is always a product of positive constants here).
Kernel-computable, unlike `Rat` whose arithmetic is extern. -/
structure JsNum where
  num : Int
  den : Nat
deriving DecidableEq, Repr

instance : Mul JsNum := ⟨fun a b => ⟨a.num * b.num, a.den * b.den⟩⟩

instance : Sub JsNum := ⟨fun a b => ⟨a.num * b.den - b.num * a.den, a.den * b.den⟩⟩

instance (n : Nat) : OfNat JsNum n := ⟨⟨n, 1⟩⟩

instance : OfScientific JsNum :=
  ⟨fun m b e => if b then ⟨m, 10 ^ e⟩ else ⟨m * 10 ^ e, 1⟩⟩

/-- Numeric equality of two fractions (cross-multiplication). -/
def jsEq (a b : JsNum) : Prop := a.num * b.den = b.num * a.den

instance (a b : JsNum) : Decidable (jsEq a b) := by
  unfold jsEq
  infer_instance

/-- The comparator value is `≤ 0` (its sign is the numerator's, all
denominators being positive). -/
def JsNum.nonpos (a : JsNum) : Prop := a.num ≤ 0

instance (a : JsNum) : Decidable a.nonpos := by
  unfold JsNum.nonpos
  infer_instance

/-- The sign of a JavaScript three-way comparator. -/
def ordQ : Ordering → JsNum
  | .lt => ⟨-1, 1⟩
  | .eq => ⟨0, 1⟩
  | .gt => ⟨1, 1⟩

/-- `a` compares less-or-equal to `b` (the comparator is not positive). -/
def sle (a b : String) : Prop := strCmp a b ≠ Ordering.gt

instance (a b : String) : Decidable (sle a b) := by
  unfold sle
  infer_instance

theorem cmpChars_eq_iff : ∀ (a b : List Char), cmpChars a b = .eq ↔ a = b := by
  intro a
  induction a with
  | nil => intro b; cases b <;> simp [cmpChars]
  | cons c cs ih =>
      intro b
      cases b with
      | nil => simp [cmpChars]
      | cons d ds =>
          simp only [cmpChars]
          by_cases h1 : c.toNat < d.toNat
          · simp only [h1, if_true]
            constructor
            · intro h; exact absurd h (by simp)
            · rintro ⟨rfl, rfl⟩
              omega
          · simp only [h1, if_false]
            by_cases h2 : d.toNat < c.toNat
            · simp only [h2, if_true]
              constructor
              · intro h; exact absurd h (by simp)
              · rintro ⟨rfl, rfl⟩
                omega
            · simp only [h2, if_false]
              have hcd : c = d := charEq_of_toNat (by omega)
              rw [ih ds]
              subst hcd
              simp

theorem cmpChars_gt_iff_lt : ∀ (a b : List Char),
    cmpChars a b = .gt ↔ cmpChars b a = .lt := by
  intro a
  induction a with
  | nil => intro b; cases b <;> simp [cmpChars]
  | cons c cs ih =>
      intro b
      cases b with
      | nil => simp [cmpChars]
      | cons d ds =>
          simp only [cmpChars]
          by_cases h1 : c.toNat < d.toNat
          · have h2 : ¬ d.toNat < c.toNat := by omega
            simp [h1, h2]
          · by_cases h2 : d.toNat < c.toNat
            · simp [h1, h2]
            · simp [h1, h2, ih ds]

theorem cmpChars_lt_trans : ∀ (a b c : List Char),
    cmpChars a b = .lt → cmpChars b c = .lt → cmpChars a c = .lt := by
  intro a
  induction a with
  | nil =>
      intro b c hab hbc
      cases b with
      | nil => exact hbc
      | cons d ds =>
          cases c with
          | nil => simp [cmpChars] at hbc
          | cons e es => simp [cmpChars]
  | cons x xs ih =>
      intro b c hab hbc
      cases b with
      | nil => simp [cmpChars] at hab
      | cons d ds =>
          cases c with
          | nil => simp [cmpChars] at hbc
          | cons e es =>
              simp only [cmpChars] at hab hbc ⊢
              by_cases h1 : x.toNat < d.toNat
              · by_cases h3 : d.toNat < e.toNat
                · have hlt : x.toNat < e.toNat := by omega
                  simp [hlt]
                · by_cases h4 : e.toNat < d.toNat
                  · rw [if_neg h3, if_pos h4] at hbc
                    exact absurd hbc (by simp)
                  · have hlt : x.toNat < e.toNat := by omega
                    simp [hlt]
              · by_cases h2 : d.toNat < x.toNat
                · rw [if_neg h1, if_pos h2] at hab
                  exact absurd hab (by simp)
                · rw [if_neg h1, if_neg h2] at hab
                  by_cases h3 : d.toNat < e.toNat
                  · have hlt : x.toNat < e.toNat := by omega
                    simp [hlt]
                  · by_cases h4 : e.toNat < d.toNat
                    · rw [if_neg h3, if_pos h4] at hbc
                      exact absurd hbc (by simp)
                    · rw [if_neg h3, if_neg h4] at hbc
                      have hne1 : ¬ x.toNat < e.toNat := by omega
                      have hne2 : ¬ e.toNat < x.toNat := by omega
                      simp only [hne1, if_false, hne2]
                      exact ih ds es hab hbc

theorem sle_total (a b : String) : sle a b ∨ sle b a := by
  unfold sle strCmp
  by_cases h : cmpChars a.data b.data = .gt
  · right
    rw [cmpChars_gt_iff_lt] at h
    rw [h]
    simp
  · exact Or.inl h

theorem sle_trans {a b c : String} (h1 : sle a b) (h2 : sle b c) : sle a c := by
  unfold sle strCmp at h1 h2 ⊢
  cases hab : cmpChars a.data b.data with
  | gt => exact absurd hab h1
  | eq =>
      have hd : a.data = b.data := (cmpChars_eq_iff _ _).mp hab
      rw [hd]
      exact h2
  | lt =>
      cases hbc : cmpChars b.data c.data with
      | gt => exact absurd hbc h2
      | eq =>
          have hd : b.data = c.data := (cmpChars_eq_iff _ _).mp hbc
          rw [← hd, hab]
          simp
      | lt =>
          rw [cmpChars_lt_trans _ _ _ hab hbc]
          simp

theorem ordQ_nonpos_iff (o : Ordering) : (ordQ o).nonpos ↔ o ≠ .gt := by
  cases o <;> simp [ordQ, JsNum.nonpos]

theorem ordQ_strCmp_nonpos_iff (a b : String) :
    (ordQ (strCmp a b)).nonpos ↔ sle a b := by
  rw [ordQ_nonpos_iff]
  rfl


/-! ## `parseFileSize`, part_000 lines 224-242

```
const parseFileSize = (sizeStr) => {
  if (!sizeStr) return 0;
  const parts = sizeStr.split(' ');
  if (parts.length < 2) return parseFloat(sizeStr) || 0;
  const value = parseFloat(parts[0]);
  const unit = parts[1].toUpperCase();
  if (isNaN(value)) return 0;
  switch (unit) {
    case 'KB': return value * 1024;
    case 'MB': return value * 1024 * 1024;
    case 'GB': return value * 1024 * 1024 * 1024;
    case 'TB': return value * 1024 * 1024 * 1024 * 1024;
    case 'B': default: return value;
  }
};
```

`parseFloat` of a short decimal literal followed by scaling with powers of
two is exact in IEEE doubles, so modelling the values as exact fractions
(`JsNum`) preserves all the claimed identities.  `parseFloat` returning
`NaN` is modelled as `none`; `x || 0` collapses both `NaN` and `0` to `0`,
i.e. `Option.getD 0` (note `(0) || 0 === 0` agrees). -/

/-- Decimal digits to a natural number. -/
def digitsToNat (l : List Char) : Nat :=
  l.foldl (fun acc c => acc * 10 + (c.toNat - 48)) 0

/-- The optional exponent part after `e`/`E`: sign and digits; `none` when
no digits follow (JS then ignores the exponent entirely). -/
def parseExpPart (l : List Char) : Option Int :=
  let sgnRest : Int × List Char :=
    match l with
    | '-' :: rest => (-1, rest)
    | '+' :: rest => (1, rest)
    | _ => (1, l)
  let ds := (sgnRest.2.span Char.isDigit).1
  if ds.isEmpty then none else some (sgnRest.1 * digitsToNat ds)

/-- Scale a fraction by `10 ^ e` for a signed exponent. -/
def JsNum.mulPow10 (x : JsNum) (e : Int) : JsNum :=
  if 0 ≤ e then ⟨x.num * 10 ^ e.toNat, x.den⟩ else ⟨x.num, x.den * 10 ^ (-e).toNat⟩

/-- `parseFloat`: leading whitespace, optional sign, integer digits,
optional fraction, optional exponent, parsing the maximal valid prefix;
`none` models `NaN` (no digits at all). -/
def parseFloatQ (s : String) : Option JsNum :=
  let l := s.data.dropWhile Char.isWhitespace
  let sgnRest : Int × List Char :=
    match l with
    | '-' :: rest => (-1, rest)
    | '+' :: rest => (1, rest)
    | _ => (1, l)
  let ipRest := sgnRest.2.span Char.isDigit
  let fpRest : List Char × List Char :=
    match ipRest.2 with
    | '.' :: rest => rest.span Char.isDigit
    | _ => ([], ipRest.2)
  if ipRest.1.isEmpty && fpRest.1.isEmpty then none
  else
    let mantissa : JsNum :=
      ⟨sgnRest.1 * (digitsToNat ipRest.1 * 10 ^ fpRest.1.length + digitsToNat fpRest.1),
       10 ^ fpRest.1.length⟩
    let e : Int :=
      (match fpRest.2 with
       | 'e' :: rest => parseExpPart rest
       | 'E' :: rest => parseExpPart rest
       | _ => none).getD 0
    some (mantissa.mulPow10 e)

/-- Split a character list at every space, like `String.split(' ')` in
JavaScript (consecutive separators yield empty groups, `""` yields `[""]`). -/
def splitChars : List Char → List (List Char)
  | [] => [[]]
  | c :: rest =>
    let r := splitChars rest
    if c = ' ' then [] :: r
    else match r with
      | [] => [[c]]
      | g :: gs => (c :: g) :: gs

/-- `sizeStr.split(' ')`. -/
def splitOnSpace (s : String) : List String :=
  (splitChars s.data).map String.mk

/-- `toUpperCase` (character-wise; the unit strings are ASCII). -/
def toUpperStr (s : String) : String := String.mk (s.data.map Char.toUpper)

/-- `toLowerCase` (character-wise). -/
def toLowerStr (s : String) : String := String.mk (s.data.map Char.toLower)

/-- `trim` (strip whitespace at both ends). -/
def trimStr (s : String) : String :=
  String.mk (((s.data.dropWhile Char.isWhitespace).reverse.dropWhile
    Char.isWhitespace).reverse)

/-- `parseFileSize(sizeStr)`. -/
def parseFileSize (sizeStr : String) : JsNum :=
  if sizeStr = "" then 0
  else
    let parts := splitOnSpace sizeStr
    if parts.length < 2 then (parseFloatQ sizeStr).getD 0
    else
      match parseFloatQ (parts.getD 0 "") with
      | none => 0
      | some value =>
        let unit := toUpperStr (parts.getD 1 "")
        if unit = "KB" then value * 1024
        else if unit = "MB" then value * 1024 * 1024
        else if unit = "GB" then value * 1024 * 1024 * 1024
        else if unit = "TB" then value * 1024 * 1024 * 1024 * 1024
        else value

/-- C8: `parseFileSize` parses "number unit" with 1024-based multipliers,
case-insensitive in the unit (`toUpperCase` before the switch), returns
the raw number when the unit is missing or unrecognized (`B`/default
branch), and 0 when the numeric part is unparseable; in particular
`parseFileSize("4.2 MB") = 4.2·1024·1024`, `parseFileSize("") = 0` and
`parseFileSize("900 B") = 900`. -/
theorem parseFileSize_spec :
    jsEq (parseFileSize "4.2 MB") ((4.2 : JsNum) * 1024 * 1024) ∧
    jsEq (parseFileSize "") 0 ∧
    jsEq (parseFileSize "900 B") 900 ∧
    jsEq (parseFileSize "4.2 mb") ((4.2 : JsNum) * 1024 * 1024) ∧
    jsEq (parseFileSize "4.2 Mb") ((4.2 : JsNum) * 1024 * 1024) ∧
    jsEq (parseFileSize "1 kb") 1024 ∧
    jsEq (parseFileSize "1 GB") (1024 * 1024 * 1024) ∧
    jsEq (parseFileSize "2 tb") (2 * 1024 * 1024 * 1024 * 1024) ∧
    jsEq (parseFileSize "512") 512 ∧
    jsEq (parseFileSize "3 XB") 3 ∧
    jsEq (parseFileSize "abc KB") 0 := by
  decide

/-! ## The listing pipeline `processedItems`, part_000 lines 792-920

Stages filter → search → sort over a source listing (the source-selection
stage, lines 793-803, picks which listing feeds the pipeline and is not
needed by the claims, which quantify over listings).

`Array.prototype.sort` (stable since ES2019) is modelled by stable
insertion sort (`List.insertionSort`); for the consistent comparators
used here the stable sorted permutation is unique, so any correct stable
sort produces the same output.  A JS comparator returns a number and the
sort consults only its sign, modelled by `JsNum.nonpos`.

`new Date(s).getTime()` on the ISO-8601 timestamp strings the repository
stores is chronologically ordered exactly as the strings are ordered by
code point, so the sign of `getTime(a) - getTime(b)` is modelled by the
three-way string comparison `strCmp`. -/

/-- `a.type === FOLDER ? a.name : a.title` (the `nameA`/`nameB` of the
name branches; also the folder-name accessor of the date/size branches). -/
def nameOrTitle : GItem → String
  | .folder _ n _ _ => n
  | .media m => m.title

/-- `(a as MediaItem).date` (only consulted on media items). -/
def mdate : GItem → String
  | .media m => m.date
  | .folder _ _ _ _ => ""

/-- `(a as MediaItem).fileSize` (only consulted on media items). -/
def mfileSize : GItem → String
  | .media m => m.fileSize
  | .folder _ _ _ _ => ""

/-- The two folder-first guards shared by all six comparator closures:
`if (a folder && !b folder) return -1; if (!a folder && b folder) return 1;`. -/
def folderFirstCmp (sub : GItem → GItem → JsNum) (a b : GItem) : JsNum :=
  if a.isFolder && !b.isFolder then ⟨-1, 1⟩
  else if !a.isFolder && b.isFolder then ⟨1, 1⟩
  else sub a b

/-- The `name-asc` comparator. -/
def cmpNameAsc : GItem → GItem → JsNum :=
  folderFirstCmp fun a b => ordQ (strCmp (nameOrTitle a) (nameOrTitle b))

/-- The `name-desc` comparator (`nameB.localeCompare(nameA)`). -/
def cmpNameDesc : GItem → GItem → JsNum :=
  folderFirstCmp fun a b => ordQ (strCmp (nameOrTitle b) (nameOrTitle a))

/-- The `date-asc` comparator (folder pairs by name ascending). -/
def cmpDateAsc : GItem → GItem → JsNum :=
  folderFirstCmp fun a b =>
    if a.isFolder then ordQ (strCmp (nameOrTitle a) (nameOrTitle b))
    else ordQ (strCmp (mdate a) (mdate b))

/-- The `date-desc` (default) comparator (folder pairs by name ascending). -/
def cmpDateDesc : GItem → GItem → JsNum :=
  folderFirstCmp fun a b =>
    if a.isFolder then ordQ (strCmp (nameOrTitle a) (nameOrTitle b))
    else ordQ (strCmp (mdate b) (mdate a))

/-- The `size-desc` comparator (folder pairs by name ascending). -/
def cmpSizeDesc : GItem → GItem → JsNum :=
  folderFirstCmp fun a b =>
    if a.isFolder then ordQ (strCmp (nameOrTitle a) (nameOrTitle b))
    else parseFileSize (mfileSize b) - parseFileSize (mfileSize a)

/-- The `size-asc` comparator (folder pairs by name ascending). -/
def cmpSizeAsc : GItem → GItem → JsNum :=
  folderFirstCmp fun a b =>
    if a.isFolder then ordQ (strCmp (nameOrTitle a) (nameOrTitle b))
    else parseFileSize (mfileSize a) - parseFileSize (mfileSize b)

/-- `type SortOption`. -/
inductive SortOption where
  | dateDesc
  | dateAsc
  | nameAsc
  | nameDesc
  | sizeDesc
  | sizeAsc
deriving DecidableEq, Repr

/-- `type FilterOption`. -/
inductive FilterOption where
  | all
  | photos
  | videos
  | folders
  | liked
  | commented
deriving DecidableEq, Repr

/-- `type SpecialView` (`'none' | 'liked' | 'commented' | 'deleted'`). -/
inductive SpecialView where
  | viewNone
  | liked
  | commented
  | deleted
deriving DecidableEq, Repr

/-- The comparator selected by each branch of the sort switch. -/
def cmpOf : SortOption → GItem → GItem → JsNum
  | .nameAsc => cmpNameAsc
  | .nameDesc => cmpNameDesc
  | .dateAsc => cmpDateAsc
  | .dateDesc => cmpDateDesc
  | .sizeDesc => cmpSizeDesc
  | .sizeAsc => cmpSizeAsc

/-- `[...searchedItems].sort(comparator)`: stable sort by the comparator's
sign. -/
def jsSort (cmp : GItem → GItem → JsNum) (l : List GItem) : List GItem :=
  List.insertionSort (fun a b => (cmp a b).nonpos) l

/-- The sort switch, lines 861-919. -/
def sortSwitch (so : SortOption) (l : List GItem) : List GItem :=
  match so with
  | .nameAsc => jsSort cmpNameAsc l
  | .nameDesc => jsSort cmpNameDesc l
  | .dateAsc => jsSort cmpDateAsc l
  | .sizeDesc => jsSort cmpSizeDesc l
  | .sizeAsc => jsSort cmpSizeAsc l
  | .dateDesc => jsSort cmpDateDesc l

theorem sortSwitch_eq_jsSort (so : SortOption) (l : List GItem) :
    sortSwitch so l = jsSort (cmpOf so) l := by
  cases so <;> rfl

/-- `sortOption.startsWith('date')`. -/
def isFolderSortB : SortOption → Bool
  | .dateDesc => true
  | .dateAsc => true
  | _ => false

/-- `!['all', 'folders'].includes(filterOption)`. -/
def isSpecialFilterB : FilterOption → Bool
  | .all => false
  | .folders => false
  | _ => true

/-- `item.type === MediaType.PHOTO`. -/
def isPhoto : GItem → Bool
  | .media m => match m.mtype with | .photo => true | .video => false
  | .folder _ _ _ _ => false

/-- `item.type === MediaType.VIDEO`. -/
def isVideo : GItem → Bool
  | .media m => match m.mtype with | .photo => false | .video => true
  | .folder _ _ _ _ => false

/-- `item.likedBy` (media only). -/
def likedByOf : GItem → List String
  | .media m => m.likedBy
  | .folder _ _ _ _ => []

/-- `!!item.comment?.trim()`. -/
def hasTrimmedComment : GItem → Bool
  | .media m =>
    match m.comment with
    | some c => !(trimStr c = "")
    | none => false
  | .folder _ _ _ _ => false

/-- The filter-stage predicate, lines 805-835. -/
def filterPred (so : SortOption) (fo : FilterOption) (userId : String)
    (item : GItem) : Bool :=
  if isFolderSortB so && item.isFolder then false
  else if isSpecialFilterB fo && item.isFolder then false
  else match fo with
    | .all => true
    | .photos => isPhoto item
    | .videos => isVideo item
    | .folders => item.isFolder
    | .liked => if item.isFolder then false else (likedByOf item).contains userId
    | .commented => if item.isFolder then false else hasTrimmedComment item

/-- The filter stage (`filteredItems`). -/
def filterStage (so : SortOption) (fo : FilterOption) (userId : String)
    (items : List GItem) : List GItem :=
  items.filter (filterPred so fo userId)

/-- `hay.includes(needle)` on strings. -/
def containsSub (hay needle : String) : Bool :=
  hay.data.tails.any (fun t => needle.data.isPrefixOf t)

/-- The search stage (`searchedItems`), lines 837-858. -/
def searchStage (sv : SpecialView) (fo : FilterOption) (q : String)
    (items : List GItem) : List GItem :=
  if trimStr q = "" then items
  else
    let lq := toLowerStr q
    items.filter fun item =>
      match item with
      | .folder _ n _ _ => containsSub (toLowerStr n) lq
      | .media m =>
        let isCommentFiltered :=
          (match sv with | .commented => true | _ => false) ||
          (match fo with | .commented => true | _ => false)
        let titleMatch := containsSub (toLowerStr m.title) lq
        if isCommentFiltered then
          titleMatch || (match m.comment with
            | some c => containsSub (toLowerStr c) lq
            | none => false)
        else titleMatch

/-- The full pipeline on a source listing: filter, then search, then sort. -/
def processedItems (sv : SpecialView) (fo : FilterOption) (so : SortOption)
    (q userId : String) (sourceItems : List GItem) : List GItem :=
  sortSwitch so (searchStage sv fo q (filterStage so fo userId sourceItems))

theorem ffc_same (sub : GItem → GItem → JsNum) {a b : GItem}
    (h : a.isFolder = b.isFolder) : folderFirstCmp sub a b = sub a b := by
  unfold folderFirstCmp
  rw [← h]
  cases hh : a.isFolder <;> simp [hh]

theorem ffc_fn (sub : GItem → GItem → JsNum) {a b : GItem}
    (ha : a.isFolder = true) (hb : b.isFolder = false) :
    folderFirstCmp sub a b = ⟨-1, 1⟩ := by
  simp [folderFirstCmp, ha, hb]

theorem ffc_nf (sub : GItem → GItem → JsNum) {a b : GItem}
    (ha : a.isFolder = false) (hb : b.isFolder = true) :
    folderFirstCmp sub a b = ⟨1, 1⟩ := by
  simp [folderFirstCmp, ha, hb]

theorem folderFirstCmp_tot (sub : GItem → GItem → JsNum)
    (h : ∀ x y, x.isFolder = y.isFolder → (sub x y).nonpos ∨ (sub y x).nonpos)
    (a b : GItem) :
    (folderFirstCmp sub a b).nonpos ∨ (folderFirstCmp sub b a).nonpos := by
  cases ha : a.isFolder <;> cases hb : b.isFolder
  · rw [ffc_same sub (ha.trans hb.symm), ffc_same sub (hb.trans ha.symm)]
    exact h a b (ha.trans hb.symm)
  · right
    rw [ffc_fn sub hb ha]
    decide
  · left
    rw [ffc_fn sub ha hb]
    decide
  · rw [ffc_same sub (ha.trans hb.symm), ffc_same sub (hb.trans ha.symm)]
    exact h a b (ha.trans hb.symm)

theorem folderFirstCmp_trans (sub : GItem → GItem → JsNum)
    (h : ∀ x y z, x.isFolder = y.isFolder → y.isFolder = z.isFolder →
      (sub x y).nonpos → (sub y z).nonpos → (sub x z).nonpos)
    (a b c : GItem)
    (h1 : (folderFirstCmp sub a b).nonpos)
    (h2 : (folderFirstCmp sub b c).nonpos) :
    (folderFirstCmp sub a c).nonpos := by
  cases ha : a.isFolder <;> cases hb : b.isFolder <;> cases hc : c.isFolder
  · rw [ffc_same sub (ha.trans hb.symm)] at h1
    rw [ffc_same sub (hb.trans hc.symm)] at h2
    rw [ffc_same sub (ha.trans hc.symm)]
    exact h a b c (ha.trans hb.symm) (hb.trans hc.symm) h1 h2
  · rw [ffc_nf sub hb hc] at h2
    exact absurd h2 (by decide)
  · rw [ffc_nf sub ha hb] at h1
    exact absurd h1 (by decide)
  · rw [ffc_nf sub ha hb] at h1
    exact absurd h1 (by decide)
  · rw [ffc_fn sub ha hc]
    decide
  · rw [ffc_fn sub ha hb] at h1
    rw [ffc_nf sub hb hc] at h2
    exact absurd h2 (by decide)
  · rw [ffc_fn sub ha hc]
    decide
  · rw [ffc_same sub (ha.trans hb.symm)] at h1
    rw [ffc_same sub (hb.trans hc.symm)] at h2
    rw [ffc_same sub (ha.trans hc.symm)]
    exact h a b c (ha.trans hb.symm) (hb.trans hc.symm) h1 h2

theorem ordQ_pair_tot (s t : String) :
    (ordQ (strCmp s t)).nonpos ∨ (ordQ (strCmp t s)).nonpos := by
  rw [ordQ_strCmp_nonpos_iff, ordQ_strCmp_nonpos_iff]
  exact sle_total s t

theorem ordQ_pair_trans {s t u : String} :
    (ordQ (strCmp s t)).nonpos → (ordQ (strCmp t u)).nonpos →
    (ordQ (strCmp s u)).nonpos := by
  rw [ordQ_strCmp_nonpos_iff, ordQ_strCmp_nonpos_iff, ordQ_strCmp_nonpos_iff]
  exact sle_trans

theorem jsSub_num (p q : JsNum) :
    (p - q).num = p.num * q.den - q.num * p.den := rfl

theorem jsMul_den (p q : JsNum) : (p * q).den = p.den * q.den := rfl

theorem jsOfNat_den (n : Nat) : (OfNat.ofNat n : JsNum).den = 1 := rfl

theorem jsSub_tot (p q : JsNum) : (p - q).nonpos ∨ (q - p).nonpos := by
  unfold JsNum.nonpos
  rw [jsSub_num, jsSub_num]
  omega

theorem jsSub_trans {p q r : JsNum} (hq : 0 < q.den)
    (h1 : (p - q).nonpos) (h2 : (q - r).nonpos) : (p - r).nonpos := by
  unfold JsNum.nonpos at h1 h2 ⊢
  rw [jsSub_num] at h1 h2 ⊢
  have h1' : p.num * q.den ≤ q.num * p.den := by omega
  have h2' : q.num * r.den ≤ r.num * q.den := by omega
  have hc : (0:Int) ≤ (r.den : Int) := Int.natCast_nonneg _
  have hp : (0:Int) ≤ (p.den : Int) := Int.natCast_nonneg _
  have t1 := mul_le_mul_of_nonneg_right h1' hc
  have t2 := mul_le_mul_of_nonneg_right h2' hp
  have hq' : (0:Int) < (q.den : Int) := by exact_mod_cast hq
  nlinarith [t1, t2, hq']

theorem parseFloatQ_den_pos (s : String) (v : JsNum)
    (h : parseFloatQ s = some v) : 0 < v.den := by
  simp only [parseFloatQ] at h
  split at h
  · exact absurd h (by simp)
  · injection h with h
    rw [← h]
    unfold JsNum.mulPow10
    split
    · exact pow_pos (by norm_num) _
    · exact Nat.mul_pos (pow_pos (by norm_num) _) (pow_pos (by norm_num) _)

theorem parseFileSize_den_pos (s : String) : 0 < (parseFileSize s).den := by
  simp only [parseFileSize]
  split
  · decide
  · split
    · cases hp : parseFloatQ s with
      | none => simp [hp]; decide
      | some v =>
          simp only [hp, Option.getD_some]
          exact parseFloatQ_den_pos s v hp
    · cases hp : parseFloatQ ((splitOnSpace s).getD 0 "") with
      | none => simp [hp]; decide
      | some v =>
          simp only [hp]
          have hv := parseFloatQ_den_pos _ v hp
          split
          · simpa [jsMul_den, show JsNum.den 1024 = 1 from rfl] using hv
          · split
            · simpa [jsMul_den, show JsNum.den 1024 = 1 from rfl] using hv
            · split
              · simpa [jsMul_den, show JsNum.den 1024 = 1 from rfl] using hv
              · split
                · simpa [jsMul_den, show JsNum.den 1024 = 1 from rfl] using hv
                · exact hv

theorem cmpOf_tot (so : SortOption) (a b : GItem) :
    (cmpOf so a b).nonpos ∨ (cmpOf so b a).nonpos := by
  cases so
  case nameAsc =>
    simp only [cmpOf, cmpNameAsc]
    refine folderFirstCmp_tot (fun a b => ordQ (strCmp (nameOrTitle a) (nameOrTitle b))) (fun x y h => ?_) a b
    exact ordQ_pair_tot _ _
  case nameDesc =>
    simp only [cmpOf, cmpNameDesc]
    refine folderFirstCmp_tot (fun a b => ordQ (strCmp (nameOrTitle b) (nameOrTitle a))) (fun x y h => ?_) a b
    exact ordQ_pair_tot _ _
  case dateAsc =>
    simp only [cmpOf, cmpDateAsc]
    refine folderFirstCmp_tot (fun a b =>
    if a.isFolder then ordQ (strCmp (nameOrTitle a) (nameOrTitle b))
    else ordQ (strCmp (mdate a) (mdate b))) (fun x y h => ?_) a b
    by_cases hx : x.isFolder = true
    · have hy : y.isFolder = true := h ▸ hx
      simp only [hx, hy, if_true]
      exact ordQ_pair_tot _ _
    · have hy : ¬ y.isFolder = true := by rw [← h]; exact hx
      simp only [hx, hy, if_false]
      exact ordQ_pair_tot _ _
  case dateDesc =>
    simp only [cmpOf, cmpDateDesc]
    refine folderFirstCmp_tot (fun a b =>
    if a.isFolder then ordQ (strCmp (nameOrTitle a) (nameOrTitle b))
    else ordQ (strCmp (mdate b) (mdate a))) (fun x y h => ?_) a b
    by_cases hx : x.isFolder = true
    · have hy : y.isFolder = true := h ▸ hx
      simp only [hx, hy, if_true]
      exact ordQ_pair_tot _ _
    · have hy : ¬ y.isFolder = true := by rw [← h]; exact hx
      simp only [hx, hy, if_false]
      exact ordQ_pair_tot _ _
  case sizeAsc =>
    simp only [cmpOf, cmpSizeAsc]
    refine folderFirstCmp_tot (fun a b =>
    if a.isFolder then ordQ (strCmp (nameOrTitle a) (nameOrTitle b))
    else parseFileSize (mfileSize a) - parseFileSize (mfileSize b)) (fun x y h => ?_) a b
    by_cases hx : x.isFolder = true
    · have hy : y.isFolder = true := h ▸ hx
      simp only [hx, hy, if_true]
      exact ordQ_pair_tot _ _
    · have hy : ¬ y.isFolder = true := by rw [← h]; exact hx
      simp only [hx, hy, if_false]
      exact jsSub_tot _ _
  case sizeDesc =>
    simp only [cmpOf, cmpSizeDesc]
    refine folderFirstCmp_tot (fun a b =>
    if a.isFolder then ordQ (strCmp (nameOrTitle a) (nameOrTitle b))
    else parseFileSize (mfileSize b) - parseFileSize (mfileSize a)) (fun x y h => ?_) a b
    by_cases hx : x.isFolder = true
    · have hy : y.isFolder = true := h ▸ hx
      simp only [hx, hy, if_true]
      exact ordQ_pair_tot _ _
    · have hy : ¬ y.isFolder = true := by rw [← h]; exact hx
      simp only [hx, hy, if_false]
      exact jsSub_tot _ _

theorem cmpOf_trans (so : SortOption) (a b c : GItem)
    (h1 : (cmpOf so a b).nonpos) (h2 : (cmpOf so b c).nonpos) :
    (cmpOf so a c).nonpos := by
  cases so
  case nameAsc =>
    simp only [cmpOf, cmpNameAsc] at h1 h2 ⊢
    refine folderFirstCmp_trans (fun a b => ordQ (strCmp (nameOrTitle a) (nameOrTitle b)))
      (fun x y z hxy hyz hs1 hs2 => ?_) a b c h1 h2
    exact ordQ_pair_trans hs1 hs2
  case nameDesc =>
    simp only [cmpOf, cmpNameDesc] at h1 h2 ⊢
    refine folderFirstCmp_trans (fun a b => ordQ (strCmp (nameOrTitle b) (nameOrTitle a)))
      (fun x y z hxy hyz hs1 hs2 => ?_) a b c h1 h2
    exact ordQ_pair_trans hs2 hs1
  case dateAsc =>
    simp only [cmpOf, cmpDateAsc] at h1 h2 ⊢
    refine folderFirstCmp_trans (fun a b =>
    if a.isFolder then ordQ (strCmp (nameOrTitle a) (nameOrTitle b))
    else ordQ (strCmp (mdate a) (mdate b)))
      (fun x y z hxy hyz hs1 hs2 => ?_) a b c h1 h2
    by_cases hx : x.isFolder = true
    · have hy : y.isFolder = true := hxy ▸ hx
      simp only [hx, if_true] at hs1 ⊢
      simp only [hy, if_true] at hs2
      exact ordQ_pair_trans hs1 hs2
    · have hy : ¬ y.isFolder = true := by rw [← hxy]; exact hx
      simp only [hx, if_false] at hs1 ⊢
      simp only [hy, if_false] at hs2
      exact ordQ_pair_trans hs1 hs2
  case dateDesc =>
    simp only [cmpOf, cmpDateDesc] at h1 h2 ⊢
    refine folderFirstCmp_trans (fun a b =>
    if a.isFolder then ordQ (strCmp (nameOrTitle a) (nameOrTitle b))
    else ordQ (strCmp (mdate b) (mdate a)))
      (fun x y z hxy hyz hs1 hs2 => ?_) a b c h1 h2
    by_cases hx : x.isFolder = true
    · have hy : y.isFolder = true := hxy ▸ hx
      simp only [hx, if_true] at hs1 ⊢
      simp only [hy, if_true] at hs2
      exact ordQ_pair_trans hs1 hs2
    · have hy : ¬ y.isFolder = true := by rw [← hxy]; exact hx
      simp only [hx, if_false] at hs1 ⊢
      simp only [hy, if_false] at hs2
      exact ordQ_pair_trans hs2 hs1
  case sizeAsc =>
    simp only [cmpOf, cmpSizeAsc] at h1 h2 ⊢
    refine folderFirstCmp_trans (fun a b =>
    if a.isFolder then ordQ (strCmp (nameOrTitle a) (nameOrTitle b))
    else parseFileSize (mfileSize a) - parseFileSize (mfileSize b))
      (fun x y z hxy hyz hs1 hs2 => ?_) a b c h1 h2
    by_cases hx : x.isFolder = true
    · have hy : y.isFolder = true := hxy ▸ hx
      simp only [hx, if_true] at hs1 ⊢
      simp only [hy, if_true] at hs2
      exact ordQ_pair_trans hs1 hs2
    · have hy : ¬ y.isFolder = true := by rw [← hxy]; exact hx
      simp only [hx, if_false] at hs1 ⊢
      simp only [hy, if_false] at hs2
      exact jsSub_trans (parseFileSize_den_pos _) hs1 hs2
  case sizeDesc =>
    simp only [cmpOf, cmpSizeDesc] at h1 h2 ⊢
    refine folderFirstCmp_trans (fun a b =>
    if a.isFolder then ordQ (strCmp (nameOrTitle a) (nameOrTitle b))
    else parseFileSize (mfileSize b) - parseFileSize (mfileSize a))
      (fun x y z hxy hyz hs1 hs2 => ?_) a b c h1 h2
    by_cases hx : x.isFolder = true
    · have hy : y.isFolder = true := hxy ▸ hx
      simp only [hx, if_true] at hs1 ⊢
      simp only [hy, if_true] at hs2
      exact ordQ_pair_trans hs1 hs2
    · have hy : ¬ y.isFolder = true := by rw [← hxy]; exact hx
      simp only [hx, if_false] at hs1 ⊢
      simp only [hy, if_false] at hs2
      exact jsSub_trans (parseFileSize_den_pos _) hs2 hs1

theorem jsSort_pairwise (cmp : GItem → GItem → JsNum)
    (htot : ∀ a b, (cmp a b).nonpos ∨ (cmp b a).nonpos)
    (htrans : ∀ a b c, (cmp a b).nonpos → (cmp b c).nonpos → (cmp a c).nonpos)
    (l : List GItem) :
    (jsSort cmp l).Pairwise (fun a b => (cmp a b).nonpos) := by
  haveI : IsTotal GItem (fun a b => (cmp a b).nonpos) := ⟨htot⟩
  haveI : IsTrans GItem (fun a b => (cmp a b).nonpos) := ⟨htrans⟩
  exact List.sorted_insertionSort _ l

theorem processedItems_pairwise (sv : SpecialView) (fo : FilterOption)
    (so : SortOption) (q uid : String) (src : List GItem) :
    (processedItems sv fo so q uid src).Pairwise
      (fun a b => (cmpOf so a b).nonpos) := by
  unfold processedItems
  rw [sortSwitch_eq_jsSort]
  exact jsSort_pairwise (cmpOf so) (cmpOf_tot so) (cmpOf_trans so) _

theorem cmpOf_nf (so : SortOption) {a b : GItem}
    (ha : a.isFolder = false) (hb : b.isFolder = true) :
    cmpOf so a b = ⟨1, 1⟩ := by
  cases so <;>
    simp only [cmpOf, cmpNameAsc, cmpNameDesc, cmpDateAsc, cmpDateDesc,
      cmpSizeAsc, cmpSizeDesc] <;>
    exact ffc_nf _ ha hb

/-- C6: for every non-empty mixed listing (at least one folder and one
non-folder entry) and every one of the six sort options, in the sorted
output of the listing pipeline every folder entry precedes every
non-folder entry: any entry preceding a folder entry is itself a folder. -/
theorem processedItems_folders_first (sv : SpecialView) (fo : FilterOption)
    (so : SortOption) (q uid : String) (src : List GItem)
    (hmix : (∃ x ∈ src, x.isFolder = true) ∧ (∃ y ∈ src, y.isFolder = false)) :
    ∀ (i j : Nat) (hi : i < (processedItems sv fo so q uid src).length)
      (hj : j < (processedItems sv fo so q uid src).length), i < j →
      ((processedItems sv fo so q uid src)[j]).isFolder = true →
      ((processedItems sv fo so q uid src)[i]).isFolder = true := by
  intro i j hi hj hij hjf
  have hp := processedItems_pairwise sv fo so q uid src
  rw [List.pairwise_iff_getElem] at hp
  have hc := hp i j hi hj hij
  by_contra hif
  have hif' : ((processedItems sv fo so q uid src)[i]).isFolder = false :=
    Bool.not_eq_true _ ▸ hif
  rw [cmpOf_nf so hif' hjf] at hc
  exact absurd hc (by decide)

def c6T : List GItem :=
  [.media (mkMedia "m" "A photo"), .folder "f" "B folder" false [],
   .folder "g" "C folder" false []]

/-- Witness for C6 on a concrete mixed listing under `name-asc`: the
entry preceding the folder entry at index 1 is itself a folder. -/
theorem processedItems_folders_first_witness :
    ((processedItems SpecialView.viewNone FilterOption.all SortOption.nameAsc
        "" "u" c6T).get ⟨0, by decide⟩).isFolder = true := by
  have h := processedItems_folders_first .viewNone .all .nameAsc "" "u" c6T
    ⟨⟨.folder "f" "B folder" false [],
        List.mem_cons_of_mem _ (List.mem_cons_self _ _), rfl⟩,
     ⟨.media (mkMedia "m" "A photo"), List.mem_cons_self _ _, rfl⟩⟩
    0 1 (by decide) (by decide) (by decide) (by decide)
  simpa using h

def c2T : List GItem :=
  [.folder "fa" "Alpha" false [], .folder "fb" "Beta" false []]

/-- C2 counterexample: under the `name-desc` option the pipeline orders the
two folders "Alpha", "Beta" as [Beta, Alpha] — the folder partition is NOT
ordered by name ascending, refuting "folders are ordered by name ascending
always (even under the name-descending option)". -/
theorem processedItems_folder_name_asc_cex :
    ¬ (((processedItems .viewNone .all .nameDesc "" "u" c2T).filter
        (fun x => x.isFolder)).Pairwise
        (fun a b => sle (nameOrTitle a) (nameOrTitle b))) := by
  decide

theorem cmpOf_folders_asc (so : SortOption) (hne : so ≠ SortOption.nameDesc)
    {a b : GItem} (ha : a.isFolder = true) (hb : b.isFolder = true)
    (h : (cmpOf so a b).nonpos) : sle (nameOrTitle a) (nameOrTitle b) := by
  cases so
  case nameDesc => exact absurd rfl hne
  case nameAsc =>
    simp only [cmpOf, cmpNameAsc] at h
    rw [ffc_same _ (ha.trans hb.symm)] at h
    exact (ordQ_strCmp_nonpos_iff _ _).mp h
  all_goals
    simp only [cmpOf, cmpDateAsc, cmpDateDesc, cmpSizeAsc, cmpSizeDesc] at h
  all_goals
    rw [ffc_same _ (ha.trans hb.symm)] at h
  all_goals
    simp only [ha, if_true] at h
  all_goals
    exact (ordQ_strCmp_nonpos_iff _ _).mp h

theorem cmpNameDesc_folders_desc {a b : GItem}
    (ha : a.isFolder = true) (hb : b.isFolder = true)
    (h : (cmpOf SortOption.nameDesc a b).nonpos) :
    sle (nameOrTitle b) (nameOrTitle a) := by
  simp only [cmpOf, cmpNameDesc] at h
  rw [ffc_same _ (ha.trans hb.symm)] at h
  exact (ordQ_strCmp_nonpos_iff _ _).mp h

/-- C2 as amended: in the sorted pipeline output the folder partition is
ordered by name ascending under `name-asc` and both size options (and
vacuously under the date options, whose filter stage excludes folders);
under `name-desc`, however, the folder partition is ordered by name
DESCENDING, because `nameB.localeCompare(nameA)` is applied to folder
pairs too. -/
theorem processedItems_folder_name_order (sv : SpecialView) (fo : FilterOption)
    (so : SortOption) (q uid : String) (src : List GItem) :
    (so ≠ SortOption.nameDesc →
      ((processedItems sv fo so q uid src).filter
        (fun x => x.isFolder)).Pairwise
        (fun a b => sle (nameOrTitle a) (nameOrTitle b))) ∧
    (so = SortOption.nameDesc →
      ((processedItems sv fo so q uid src).filter
        (fun x => x.isFolder)).Pairwise
        (fun a b => sle (nameOrTitle b) (nameOrTitle a))) := by
  have hp := processedItems_pairwise sv fo so q uid src
  have hf : ((processedItems sv fo so q uid src).filter
      (fun x => x.isFolder)).Pairwise (fun a b => (cmpOf so a b).nonpos) :=
    hp.sublist (List.filter_sublist _)
  constructor
  · intro hne
    refine hf.imp_of_mem (fun ha hb hr => ?_)
    exact cmpOf_folders_asc so hne (List.mem_filter.mp ha).2
      (List.mem_filter.mp hb).2 hr
  · intro heq
    subst heq
    refine hf.imp_of_mem (fun ha hb hr => ?_)
    exact cmpNameDesc_folders_desc (List.mem_filter.mp ha).2
      (List.mem_filter.mp hb).2 hr

/-- Witness for the amended C2 at a concrete listing under `size-asc`. -/
theorem processedItems_folder_name_order_witness :
    ((processedItems .viewNone .all .sizeAsc "" "u" c2T).filter
      (fun x => x.isFolder)).Pairwise
      (fun a b => sle (nameOrTitle a) (nameOrTitle b)) :=
  (processedItems_folder_name_order .viewNone .all .sizeAsc "" "u" c2T).1
    (by decide)

/-! ## `login`, part_002 lines 4-17

```
export const login = async (username, password) =>
  new Promise((resolve, reject) => {
    setTimeout(() => {
      const clientData = MOCK_CLIENT_DATA.find(
        (client) => client.user.username === username && client.user.password === password
      );
      if (clientData) { resolve(clientData.user); }
      else { reject(new Error('Invalid username or password.')); }
    }, 1000);
  });
```

The mock data module itself (`MOCK_CLIENT_DATA`) is not part of the
sources, so the client list is a parameter; the timer only delays the
settled value and is dropped.  A settled promise is `Except`:
`Except.ok` for resolve, `Except.error` with the message for reject. -/

/-- The `User` record (`src/types/index.ts`). -/
structure User where
  id : String
  username : String
  password : String
  name : String
  profileImageUrl : Option String
deriving DecidableEq, Repr

/-- One entry of `MOCK_CLIENT_DATA`. -/
structure ClientData where
  user : User
  gallery : List GItem

/-- `login(username, password)` over a given mock-client list. -/
def login (clients : List ClientData) (username password : String) :
    Except String User :=
  match clients.find? (fun c =>
      c.user.username = username && c.user.password = password) with
  | some c => .ok c.user
  | none => .error "Invalid username or password."

/-- C9: `login` resolves with the `User` of a mock client whose username
and password both match, and rejects with exactly the message
"Invalid username or password." if and only if no mock client matches
both credentials. -/
theorem login_spec (clients : List ClientData) (username password : String) :
    ((∃ c ∈ clients, c.user.username = username ∧ c.user.password = password) →
      ∃ c ∈ clients, c.user.username = username ∧ c.user.password = password ∧
        login clients username password = .ok c.user) ∧
    (login clients username password = .error "Invalid username or password."
      ↔ ¬ ∃ c ∈ clients, c.user.username = username ∧
            c.user.password = password) := by
  constructor
  · intro hex
    cases hfind : clients.find? (fun c =>
        c.user.username = username && c.user.password = password) with
    | none =>
        exfalso
        obtain ⟨c, hc, h1, h2⟩ := hex
        have := List.find?_eq_none.mp hfind c hc
        simp [h1, h2] at this
    | some c =>
        have hmem := List.mem_of_find?_eq_some hfind
        have hprop := List.find?_some hfind
        simp only [Bool.and_eq_true, decide_eq_true_eq] at hprop
        refine ⟨c, hmem, hprop.1, hprop.2, ?_⟩
        simp [login, hfind]
  · cases hfind : clients.find? (fun c =>
        c.user.username = username && c.user.password = password) with
    | none =>
        simp only [login, hfind]
        constructor
        · rintro - ⟨c, hc, h1, h2⟩
          have := List.find?_eq_none.mp hfind c hc
          simp [h1, h2] at this
        · intro _
          trivial
    | some c =>
        simp only [login, hfind]
        constructor
        · intro h
          exact absurd h (by simp)
        · intro hno
          exfalso
          have hmem := List.mem_of_find?_eq_some hfind
          have hprop := List.find?_some hfind
          simp only [Bool.and_eq_true, decide_eq_true_eq] at hprop
          exact hno ⟨c, hmem, hprop.1, hprop.2⟩

def c9U : User :=
  { id := "u1", username := "alice", password := "pw", name := "Alice",
    profileImageUrl := none }

def c9Clients : List ClientData :=
  [{ user := c9U, gallery := [] },
   { user := { id := "u2", username := "bob", password := "pw2", name := "Bob",
               profileImageUrl := none }, gallery := [] }]

/-- Witness for C9: matching credentials log in as the matching user, and
the reject-message equivalence holds at a concrete client list. -/
theorem login_spec_witness :
    (∃ c ∈ c9Clients, c.user.username = "alice" ∧ c.user.password = "pw" ∧
      login c9Clients "alice" "pw" = .ok c.user) ∧
    (login c9Clients "alice" "wrong"
        = .error "Invalid username or password."
      ↔ ¬ ∃ c ∈ c9Clients, c.user.username = "alice" ∧
            c.user.password = "wrong") :=
  ⟨(login_spec c9Clients "alice" "pw").1
     ⟨{ user := c9U, gallery := [] }, List.mem_cons_self _ _, rfl, rfl⟩,
   (login_spec c9Clients "alice" "wrong").2⟩

/-! ## `handleConfirmMove` (moveItems), part_000 lines 1317-1365

```
const findAndRemove = (items) => {
  const keptItems = [];
  for (const item of items) {
    if (idsToMove.has(item.id)) { itemsToMove.push(item); }
    else {
      if (item.type === MediaType.FOLDER) {
        keptItems.push({ ...item, children: findAndRemove(item.children) });
      } else { keptItems.push(item); }
    }
  }
  return keptItems;
};
const contentAfterRemoval = findAndRemove(galleryContent);
const findAndAdd = (items) => {
  if (destinationFolderId === 'root') { return [...items, ...itemsToMove]; }
  return items.map(item => {
    if (item.type === MediaType.FOLDER) {
      if (item.id === destinationFolderId) {
        return { ...item, children: [...item.children, ...itemsToMove] };
      }
      return { ...item, children: findAndAdd(item.children) };
    }
    return item;
  });
};
const newGalleryContent = findAndAdd(contentAfterRemoval);
```

The accumulator `itemsToMove` receives removed nodes in depth-first
encounter order; `findAndRemove` is modelled as returning the pair
(kept items, collected items).  `destinationFolderId === 'root'` is a
string comparison, kept as such.  The `'root'` test at the head of
`findAndAdd` is hoisted out of the recursion: recursive calls only occur
in the non-root branch, so the behaviour is identical. -/

mutual
/-- One loop iteration of `findAndRemove`: the kept items and collected
items contributed by a single entry (a targeted entry is collected whole;
an untargeted folder is kept with its children recursively filtered). -/
def findAndRemoveHead (ids : List String) : GItem → List GItem × List GItem
  | .media m =>
      if m.id ∈ ids then ([], [.media m]) else ([.media m], [])
  | .folder i n d cs =>
      if i ∈ ids then ([], [.folder i n d cs])
      else ([.folder i n d (findAndRemove ids cs).1], (findAndRemove ids cs).2)
/-- `findAndRemove(items)` together with the `itemsToMove` it accumulates,
in encounter order: (kept, collected). -/
def findAndRemove (ids : List String) : List GItem → List GItem × List GItem
  | [] => ([], [])
  | item :: rest =>
    ((findAndRemoveHead ids item).1 ++ (findAndRemove ids rest).1,
     (findAndRemoveHead ids item).2 ++ (findAndRemove ids rest).2)
end

mutual
/-- Per-item body of the `items.map` callback of `findAndRemove`'s
companion `findAndAdd` (non-root branch). -/
def findAndAddItem (dest : String) (mv : List GItem) : GItem → GItem
  | .media m => .media m
  | .folder i n d cs =>
      if i = dest then .folder i n d (cs ++ mv)
      else .folder i n d (findAndAddGo dest mv cs)
/-- The non-root recursion of `findAndAdd`. -/
def findAndAddGo (dest : String) (mv : List GItem) : List GItem → List GItem
  | [] => []
  | x :: xs => findAndAddItem dest mv x :: findAndAddGo dest mv xs
end

/-- `findAndAdd(items)`. -/
def findAndAdd (dest : String) (mv : List GItem) (items : List GItem) :
    List GItem :=
  if dest = "root" then items ++ mv else findAndAddGo dest mv items

/-- `handleConfirmMove`'s tree rewrite: remove the targeted nodes
everywhere, then append them to the destination. -/
def moveItems (T : List GItem) (ids : List String) (dest : String) :
    List GItem :=
  findAndAdd dest (findAndRemove ids T).2 (findAndRemove ids T).1

mutual
/-- No node in the subtree carries an id from `ids`. -/
def noIdsItem (ids : List String) : GItem → Bool
  | .media m => !(m.id ∈ ids : Bool)
  | .folder i _ _ cs => !(i ∈ ids : Bool) && noIdsList ids cs
/-- No node in the forest carries an id from `ids`. -/
def noIdsList (ids : List String) : List GItem → Bool
  | [] => true
  | x :: xs => noIdsItem ids x && noIdsList ids xs
end

mutual
/-- Number of folders with id `dest` in the subtree. -/
def folderCountItem (dest : String) : GItem → Nat
  | .media _ => 0
  | .folder i _ _ cs => (if i = dest then 1 else 0) + folderCountList dest cs
/-- Number of folders with id `dest` in the forest. -/
def folderCountList (dest : String) : List GItem → Nat
  | [] => 0
  | x :: xs => folderCountItem dest x + folderCountList dest xs
end

theorem findAndRemove_nil (ids : List String) :
    findAndRemove ids [] = ([], []) := rfl

theorem findAndRemove_cons_mem (ids : List String) (x : GItem)
    (xs : List GItem) (h : x.nid ∈ ids) :
    findAndRemove ids (x :: xs)
      = ((findAndRemove ids xs).1, x :: (findAndRemove ids xs).2) := by
  cases x with
  | media m =>
      simp only [GItem.nid] at h
      simp [findAndRemove, findAndRemoveHead, h]
  | folder i n d cs =>
      simp only [GItem.nid] at h
      simp [findAndRemove, findAndRemoveHead, h]

theorem findAndRemove_cons_media (ids : List String) (m : MediaData)
    (xs : List GItem) (h : (GItem.media m).nid ∉ ids) :
    findAndRemove ids (.media m :: xs)
      = (.media m :: (findAndRemove ids xs).1, (findAndRemove ids xs).2) := by
  simp only [GItem.nid] at h
  simp [findAndRemove, findAndRemoveHead, h]

theorem findAndRemove_cons_folder (ids : List String) (i n : String)
    (d : Bool) (cs xs : List GItem)
    (h : (GItem.folder i n d cs).nid ∉ ids) :
    findAndRemove ids (.folder i n d cs :: xs)
      = (.folder i n d (findAndRemove ids cs).1 :: (findAndRemove ids xs).1,
         (findAndRemove ids cs).2 ++ (findAndRemove ids xs).2) := by
  simp only [GItem.nid] at h
  simp [findAndRemove, findAndRemoveHead, h]

/-- Removal leaves no targeted id behind. -/
theorem noIds_findAndRemove (ids : List String) (l : List GItem) :
    noIdsList ids (findAndRemove ids l).1 = true := by
  have h := galleryInduction
    (fun x => ∀ i n d cs, x = GItem.folder i n d cs →
      noIdsList ids (findAndRemove ids cs).1 = true)
    (fun l => noIdsList ids (findAndRemove ids l).1 = true)
    (fun m => by intro i n d cs h; cases h)
    (fun i n d cs ih => by
      intro i' n' d' cs' h
      cases h
      exact ih)
    (by simp [findAndRemove_nil, noIdsList])
    (fun x xs ihx ihxs => by
      beta_reduce
      by_cases hid : x.nid ∈ ids
      · rw [findAndRemove_cons_mem ids x xs hid]
        exact ihxs
      · cases x with
        | media m =>
            rw [findAndRemove_cons_media ids m xs hid]
            simp only [noIdsList, noIdsItem, Bool.and_eq_true]
            simp only [GItem.nid] at hid
            simp [hid, ihxs]
        | folder i n d cs =>
            rw [findAndRemove_cons_folder ids i n d cs xs hid]
            simp only [noIdsList, noIdsItem, Bool.and_eq_true]
            simp only [GItem.nid] at hid
            simp [hid, ihxs, ihx i n d cs rfl])
  exact h.2 l

/-- Every collected node carries a targeted id. -/
theorem collected_ids (ids : List String) (l : List GItem) :
    ∀ x ∈ (findAndRemove ids l).2, x.nid ∈ ids := by
  have h := galleryInduction
    (fun y => ∀ i n d cs, y = GItem.folder i n d cs →
      ∀ x ∈ (findAndRemove ids cs).2, x.nid ∈ ids)
    (fun l => ∀ x ∈ (findAndRemove ids l).2, x.nid ∈ ids)
    (fun m => by intro i n d cs h; cases h)
    (fun i n d cs ih => by
      intro i' n' d' cs' h
      cases h
      exact ih)
    (by intro x hx; rw [findAndRemove_nil] at hx; simp at hx)
    (fun y ys ihy ihys => by
      beta_reduce
      intro x hx
      by_cases hid : y.nid ∈ ids
      · rw [findAndRemove_cons_mem ids y ys hid] at hx
        rcases List.mem_cons.mp hx with rfl | hx
        · exact hid
        · exact ihys x hx
      · cases y with
        | media m =>
            rw [findAndRemove_cons_media ids m ys hid] at hx
            exact ihys x hx
        | folder i n d cs =>
            rw [findAndRemove_cons_folder ids i n d cs ys hid] at hx
            rcases List.mem_append.mp hx with hx | hx
            · exact ihy i n d cs rfl x hx
            · exact ihys x hx)
  exact h.2 l

/-- Removal is the identity on a forest free of targeted ids. -/
theorem findAndRemove_noIds (ids : List String) (l : List GItem)
    (h : noIdsList ids l = true) : findAndRemove ids l = (l, []) := by
  have hg := galleryInduction
    (fun x => ∀ i n d cs, x = GItem.folder i n d cs →
      noIdsList ids cs = true → findAndRemove ids cs = (cs, []))
    (fun l => noIdsList ids l = true → findAndRemove ids l = (l, []))
    (fun m => by intro i n d cs h; cases h)
    (fun i n d cs ih => by
      intro i' n' d' cs' hh
      cases hh
      exact ih)
    (by intro _; exact findAndRemove_nil ids)
    (fun x xs ihx ihxs => by
      beta_reduce
      intro hno
      simp only [noIdsList, Bool.and_eq_true] at hno
      obtain ⟨hx, hxs⟩ := hno
      cases x with
      | media m =>
          simp only [noIdsItem, Bool.not_eq_true'] at hx
          have hid : (GItem.media m).nid ∉ ids := by
            simp only [GItem.nid]
            exact of_decide_eq_false hx
          rw [findAndRemove_cons_media ids m xs hid, ihxs hxs]
      | folder i n d cs =>
          simp only [noIdsItem, Bool.and_eq_true, Bool.not_eq_true'] at hx
          obtain ⟨hxi, hxcs⟩ := hx
          have hid : (GItem.folder i n d cs).nid ∉ ids := by
            simp only [GItem.nid]
            exact of_decide_eq_false hxi
          rw [findAndRemove_cons_folder ids i n d cs xs hid, ihxs hxs,
            ihx i n d cs rfl hxcs]
          rfl)
  exact hg.2 l h

/-- Removal distributes over concatenation (kept and collected parts). -/
theorem findAndRemove_append (ids : List String) (l1 l2 : List GItem) :
    findAndRemove ids (l1 ++ l2)
      = ((findAndRemove ids l1).1 ++ (findAndRemove ids l2).1,
         (findAndRemove ids l1).2 ++ (findAndRemove ids l2).2) := by
  induction l1 with
  | nil => simp [findAndRemove_nil]
  | cons y ys ih =>
      by_cases hid : y.nid ∈ ids
      · rw [List.cons_append, findAndRemove_cons_mem ids y (ys ++ l2) hid, ih,
          findAndRemove_cons_mem ids y ys hid]
        rfl
      · cases y with
        | media m =>
            rw [List.cons_append, findAndRemove_cons_media ids m (ys ++ l2) hid,
              ih, findAndRemove_cons_media ids m ys hid]
            simp
        | folder i n d cs =>
            rw [List.cons_append,
              findAndRemove_cons_folder ids i n d cs (ys ++ l2) hid, ih,
              findAndRemove_cons_folder ids i n d cs ys hid]
            simp

/-- A list whose every element carries a targeted id is removed wholesale,
in order. -/
theorem findAndRemove_all_mem (ids : List String) (mv : List GItem)
    (h : ∀ x ∈ mv, x.nid ∈ ids) : findAndRemove ids mv = ([], mv) := by
  induction mv with
  | nil => exact findAndRemove_nil ids
  | cons y ys ih =>
      rw [findAndRemove_cons_mem ids y ys (h y (List.mem_cons_self y ys)),
        ih (fun x hx => h x (List.mem_cons_of_mem y hx))]

theorem findAndAddGo_nil (dest : String) (mv : List GItem) :
    findAndAddGo dest mv [] = [] := rfl

theorem findAndAddGo_cons (dest : String) (mv : List GItem) (x : GItem)
    (xs : List GItem) :
    findAndAddGo dest mv (x :: xs)
      = findAndAddItem dest mv x :: findAndAddGo dest mv xs := rfl

/-- Insertion at an absent destination id is the identity. -/
theorem findAndAddGo_count_zero (dest : String) (mv : List GItem)
    (l : List GItem) (h : folderCountList dest l = 0) :
    findAndAddGo dest mv l = l := by
  have hg := galleryInduction
    (fun x => folderCountItem dest x = 0 → findAndAddItem dest mv x = x)
    (fun l => folderCountList dest l = 0 → findAndAddGo dest mv l = l)
    (fun m => by intro _; rfl)
    (fun i n d cs ih => by
      intro hc
      simp only [folderCountItem] at hc
      have hi : ¬ i = dest := by
        intro hh
        simp [hh] at hc
      simp only [findAndAddItem, hi, if_false]
      rw [ih (by omega)])
    (by intro _; rfl)
    (fun x xs ihx ihxs => by
      intro hc
      simp only [folderCountList] at hc
      rw [findAndAddGo_cons, ihx (by omega), ihxs (by omega)])
  exact hg.2 l h

/-- Removing the targeted ids from a tree into which they were just
appended at the unique destination folder recovers the original tree and
the appended items, in order. -/
theorem findAndRemove_findAndAddGo (ids : List String) (dest : String)
    (mv : List GItem) (hmv : ∀ x ∈ mv, x.nid ∈ ids) :
    ∀ l, folderCountList dest l = 1 → noIdsList ids l = true →
      findAndRemove ids (findAndAddGo dest mv l) = (l, mv) := by
  have hg := galleryInduction
    (fun x => folderCountItem dest x = 1 → noIdsItem ids x = true →
      findAndRemove ids [findAndAddItem dest mv x] = ([x], mv))
    (fun l => folderCountList dest l = 1 → noIdsList ids l = true →
      findAndRemove ids (findAndAddGo dest mv l) = (l, mv))
    (fun m => by
      intro hc
      simp [folderCountItem] at hc)
    (fun i n d cs ih => by
      intro hc hno
      simp only [noIdsItem, Bool.and_eq_true, Bool.not_eq_true'] at hno
      obtain ⟨hni, hncs⟩ := hno
      have hid : (GItem.folder i n d cs).nid ∉ ids := by
        simp only [GItem.nid]
        exact of_decide_eq_false hni
      by_cases hi : i = dest
      · subst hi
        have hc0 : folderCountList i cs = 0 := by
          simp only [folderCountItem] at hc
          simp at hc
          omega
        have hstep : findAndAddItem i mv (GItem.folder i n d cs)
            = GItem.folder i n d (cs ++ mv) := by
          simp [findAndAddItem]
        rw [hstep]
        have hid' : (GItem.folder i n d (cs ++ mv)).nid ∉ ids := hid
        rw [findAndRemove_cons_folder ids i n d (cs ++ mv) [] hid',
          findAndRemove_append ids cs mv,
          findAndRemove_noIds ids cs hncs,
          findAndRemove_all_mem ids mv hmv,
          findAndRemove_nil]
        simp
      · have hc1 : folderCountList dest cs = 1 := by
          simp only [folderCountItem, hi, if_false] at hc
          omega
        have hstep : findAndAddItem dest mv (GItem.folder i n d cs)
            = GItem.folder i n d (findAndAddGo dest mv cs) := by
          simp [findAndAddItem, hi]
        rw [hstep]
        have hid' : (GItem.folder i n d (findAndAddGo dest mv cs)).nid ∉ ids := hid
        rw [findAndRemove_cons_folder ids i n d (findAndAddGo dest mv cs) [] hid',
          ih hc1 hncs, findAndRemove_nil]
        simp)
    (by intro hc; simp [folderCountList] at hc)
    (fun x xs ihx ihxs => by
      beta_reduce
      intro hc hno
      simp only [folderCountList] at hc
      simp only [noIdsList, Bool.and_eq_true] at hno
      obtain ⟨hnx, hnxs⟩ := hno
      rw [findAndAddGo_cons]
      by_cases hcx : folderCountItem dest x = 1
      · have hc0 : folderCountList dest xs = 0 := by omega
        have h1 := ihx hcx hnx
        have hsplit := findAndRemove_append ids [findAndAddItem dest mv x]
          (findAndAddGo dest mv xs)
        rw [findAndAddGo_count_zero dest mv xs hc0] at hsplit ⊢
        rw [show findAndAddItem dest mv x :: xs
            = [findAndAddItem dest mv x] ++ xs from rfl, hsplit, h1,
          findAndRemove_noIds ids xs hnxs]
        simp
      · have hcx0 : folderCountItem dest x = 0 := by omega
        have hc1 : folderCountList dest xs = 1 := by omega
        have hx0 : findAndAddItem dest mv x = x := by
          have hg0 := findAndAddGo_count_zero dest mv [x]
            (by simp [folderCountList, hcx0])
          rw [findAndAddGo_cons, findAndAddGo_nil] at hg0
          injection hg0 with hg0
        have hx1 : noIdsList ids [x] = true := by
          simp [noIdsList, hnx]
        have hsplit := findAndRemove_append ids [x] (findAndAddGo dest mv xs)
        rw [hx0, show (x :: findAndAddGo dest mv xs)
            = [x] ++ findAndAddGo dest mv xs from rfl, hsplit,
          ihxs hc1 hnxs, findAndRemove_noIds ids [x] hx1]
        simp)
  exact hg.2

/-- C3: the move round-trip. For any tree, id set and destinations destA,
destB with destA ≠ destB, where destA is 'root' or (per the id-uniqueness
invariant) the id of exactly one folder surviving the removal — i.e. destA
is not a moved item nor a descendant of one — moving the same ids first to
destA and then to destB equals moving them to destB directly; the removal
collects nodes in depth-first encounter order and the insertion appends
them, in that order, to the destination (root sequence for 'root'). -/
theorem moveItems_roundtrip (T : List GItem) (ids : List String)
    (destA destB : String)
    (hAB : destA ≠ destB)
    (hA : destA = "root" ∨
      (destA ≠ "root" ∧
        folderCountList destA (findAndRemove ids T).1 = 1)) :
    moveItems (moveItems T ids destA) ids destB = moveItems T ids destB := by
  have hkept_no : noIdsList ids (findAndRemove ids T).1 = true :=
    noIds_findAndRemove ids T
  have hmv : ∀ x ∈ (findAndRemove ids T).2, x.nid ∈ ids := collected_ids ids T
  have hsecond : findAndRemove ids (moveItems T ids destA)
      = ((findAndRemove ids T).1, (findAndRemove ids T).2) := by
    rcases hA with hroot | ⟨hnroot, hcount⟩
    · show findAndRemove ids
        (findAndAdd destA (findAndRemove ids T).2 (findAndRemove ids T).1) = _
      rw [hroot]
      unfold findAndAdd
      rw [if_pos rfl,
        findAndRemove_append ids (findAndRemove ids T).1 (findAndRemove ids T).2,
        findAndRemove_noIds ids (findAndRemove ids T).1 hkept_no,
        findAndRemove_all_mem ids (findAndRemove ids T).2 hmv]
      simp
    · show findAndRemove ids
        (findAndAdd destA (findAndRemove ids T).2 (findAndRemove ids T).1) = _
      unfold findAndAdd
      rw [if_neg hnroot]
      exact findAndRemove_findAndAddGo ids destA (findAndRemove ids T).2 hmv
        (findAndRemove ids T).1 hcount hkept_no
  show findAndAdd destB (findAndRemove ids (moveItems T ids destA)).2
      (findAndRemove ids (moveItems T ids destA)).1
    = findAndAdd destB (findAndRemove ids T).2 (findAndRemove ids T).1
  rw [hsecond]

def c3T : List GItem :=
  [.folder "fA" "First" false [],
   .folder "fB" "Second" false [.media (mkMedia "m2" "Deep")],
   .media (mkMedia "m1" "Moved")]

/-- Witness for C3: moving `m1` to folder `fA` and then to folder `fB`
equals moving it to `fB` directly. -/
theorem moveItems_roundtrip_witness :
    moveItems (moveItems c3T ["m1"] "fA") ["m1"] "fB"
      = moveItems c3T ["m1"] "fB" :=
  moveItems_roundtrip c3T ["m1"] "fA" "fB" (by decide)
    (Or.inr ⟨by decide, rfl⟩)

/-- C10: when the destination is neither 'root' nor the id of a folder
still present after the removal phase (a nonexistent id, a media item's
id, or the id of a moved folder itself), the targeted nodes are removed
but never re-inserted: the move returns the pruned tree, the moved nodes
are silently lost, and no node with a targeted id remains. -/
theorem moveItems_silently_loses (T : List GItem) (ids : List String)
    (dest : String)
    (hne : ids ≠ [])
    (hroot : dest ≠ "root")
    (hcount : folderCountList dest (findAndRemove ids T).1 = 0) :
    moveItems T ids dest = (findAndRemove ids T).1 ∧
    noIdsList ids (moveItems T ids dest) = true := by
  have h1 : moveItems T ids dest = (findAndRemove ids T).1 := by
    show findAndAdd dest (findAndRemove ids T).2 (findAndRemove ids T).1 = _
    unfold findAndAdd
    rw [if_neg hroot]
    exact findAndAddGo_count_zero dest (findAndRemove ids T).2
      (findAndRemove ids T).1 hcount
  refine ⟨h1, ?_⟩
  rw [h1]
  exact noIds_findAndRemove ids T

/-- Witness for C10: moving `m1` to the id of a media item (`m2`, not a
folder) silently drops it. -/
theorem moveItems_silently_loses_witness :
    moveItems c3T ["m1"] "m2" = (findAndRemove ["m1"] c3T).1 ∧
    noIdsList ["m1"] (moveItems c3T ["m1"] "m2") = true :=
  moveItems_silently_loses c3T ["m1"] "m2" (by decide) (by decide) rfl
